import Mathlib

/-!
Verification of the sliding-window screen-casting protocol
(sources: Sender.py and reciver.py).

Python dictionaries are modelled as association lists over Nat keys
(unique keys, insertion order preserved, assignment overwrites in place,
del removes the binding).  Byte strings are modelled as List Nat.
Wall-clock time is modelled as Nat time units (the retransmission
timeout of 1.0 seconds becomes 1 time unit).  The UDP socket is
modelled by returning the list of transmitted packets and, for send
calls that can fail, by a parameter giving the index of the first
chunk whose transmission raises (none means every send succeeds).
An uncaught Python exception escaping a protocol method (struct.error
from packing an out-of-range header field) is modelled by the
SendResult.crashed outcome, which leaves the state as it was when the
exception was raised.
-/

namespace ScreenCast

/-! Association lists: the model of Python dict with Nat keys. -/

def alookup : List (Nat × α) → Nat → Option α
  | [], _ => none
  | (k, v) :: rest, key => if k = key then some v else alookup rest key

def acontains (m : List (Nat × α)) (key : Nat) : Bool :=
  (alookup m key).isSome

def ainsert (key : Nat) (v : α) : List (Nat × α) → List (Nat × α)
  | [] => [(key, v)]
  | (k, w) :: rest => if k = key then (key, v) :: rest else (k, w) :: ainsert key v rest

def aerase (key : Nat) : List (Nat × α) → List (Nat × α)
  | [] => []
  | (k, w) :: rest => if k = key then rest else (k, w) :: aerase key rest

def akeys (m : List (Nat × α)) : List Nat :=
  m.map Prod.fst

/-!
Fragmenter: split_large_frame from Sender.py (lines 96-110).
The Python default for max_chunk_size is 60000; callers inside the
protocol always use that default, and our sender-side definitions pass
60000 explicitly.  The slice frame_data[start:end] with
start = i * C and end = min ((i+1) * C, len) is List.take (end - start)
applied to List.drop start.
-/

def split_large_frame (frame_data : List Nat) (max_chunk_size : Nat) : List (List Nat) :=
  if frame_data.length ≤ max_chunk_size then [frame_data]
  else
    (List.range ((frame_data.length + max_chunk_size - 1) / max_chunk_size)).map fun i =>
      (frame_data.drop (i * max_chunk_size)).take
        (min ((i + 1) * max_chunk_size) frame_data.length - i * max_chunk_size)

/-!
Sender engine: ScreenCastSender from Sender.py.
State fields mirror the attributes set in the constructor (lines 10-37)
that the protocol methods read or write.  A Packet models one datagram
built by struct.pack as its parsed header fields plus the chunk data;
the wire size of a packet is 10 + data.length bytes.  mkPacket models
struct.pack with format IIBB: it fails (struct.error) when a field does
not fit its width.
-/

structure PacketInfo where
  frame_data : List Nat
  timestamp : Nat
  retries : Nat
deriving DecidableEq

structure Packet where
  data_length : Nat
  seq_num : Nat
  chunk_index : Nat
  total_chunks : Nat
  data : List Nat
deriving DecidableEq

structure SenderState where
  window_size : Nat
  next_seq_num : Nat
  base : Nat
  sent_packets : List (Nat × PacketInfo)
  ack_received : List (Nat × Bool)
  sent_count : Nat
  retransmit_count : Nat
deriving DecidableEq

def initSender (window_size : Nat) : SenderState :=
  ⟨window_size, 0, 0, [], [], 0, 0⟩

inductive SendResult where
  | sent
  | failed
  | crashed
deriving DecidableEq

def mkPacket (data_length seq_num chunk_index total_chunks : Nat) (data : List Nat) :
    Option Packet :=
  if 256 ≤ total_chunks then none
  else if 256 ≤ chunk_index then none
  else if 2 ^ 32 ≤ seq_num then none
  else if 2 ^ 32 ≤ data_length then none
  else some ⟨data_length, seq_num, chunk_index, total_chunks, data⟩

/--
Chunk-transmission loop of send_frame_with_protocol (lines 120-135):
pack the header (a pack failure is an uncaught struct.error, crashed),
skip the frame when the packet would exceed 65507 bytes, then send
(failAt gives the chunk index whose sendto raises).  The input list is
the enumerate of the chunk list; the returned list holds the packets
actually handed to sendto before the loop ended.
-/
def send_chunks (seq_num total_chunks : Nat) (failAt : Option Nat) :
    List (Nat × List Nat) → SendResult × List Packet
  | [] => (.sent, [])
  | (chunk_index, chunk_data) :: rest =>
    match mkPacket chunk_data.length seq_num chunk_index total_chunks chunk_data with
    | none => (.crashed, [])
    | some p =>
      if 65507 < 10 + chunk_data.length then (.failed, [])
      else if failAt = some chunk_index then (.failed, [])
      else
        let r := send_chunks seq_num total_chunks failAt rest
        (r.1, p :: r.2)

/--
send_frame_with_protocol (lines 112-148).  now is the value of
time.time() stored in the new record; the record, the ack flag, the
next_seq_num increment and the sent_count increment all happen only
after every chunk was transmitted.
-/
def send_frame_with_protocol (now : Nat) (frame_data : List Nat) (failAt : Option Nat)
    (st : SenderState) : SendResult × SenderState × List Packet :=
  if st.window_size ≤ st.next_seq_num - st.base then (.failed, st, [])
  else
    match send_chunks st.next_seq_num (split_large_frame frame_data 60000).length failAt
        (split_large_frame frame_data 60000).enum with
    | (.sent, log) =>
      (.sent,
        { st with
          sent_packets := ainsert st.next_seq_num ⟨frame_data, now, 0⟩ st.sent_packets
          ack_received := ainsert st.next_seq_num false st.ack_received
          next_seq_num := st.next_seq_num + 1
          sent_count := st.sent_count + 1 },
        log)
    | (r, log) => (r, st, log)

/--
Chunk-transmission loop of retransmit_frame (lines 160-168): identical
to the send loop except that there is no 65507-byte size check.
-/
def retransmit_chunks (seq_num total_chunks : Nat) (failAt : Option Nat) :
    List (Nat × List Nat) → SendResult × List Packet
  | [] => (.sent, [])
  | (chunk_index, chunk_data) :: rest =>
    match mkPacket chunk_data.length seq_num chunk_index total_chunks chunk_data with
    | none => (.crashed, [])
    | some p =>
      if failAt = some chunk_index then (.failed, [])
      else
        let r := retransmit_chunks seq_num total_chunks failAt rest
        (r.1, p :: r.2)

/--
retransmit_frame (lines 150-174).  The timestamp reset, retries
increment and retransmit_count increment happen only after the whole
chunk loop finished; a missing record or a send failure returns False
with the state untouched.
-/
def retransmit_frame (now : Nat) (seq_num : Nat) (failAt : Option Nat) (st : SenderState) :
    SendResult × SenderState × List Packet :=
  match alookup st.sent_packets seq_num with
  | none => (.failed, st, [])
  | some info =>
    match retransmit_chunks seq_num (split_large_frame info.frame_data 60000).length failAt
        (split_large_frame info.frame_data 60000).enum with
    | (.sent, log) =>
      (.sent,
        { st with
          sent_packets := ainsert seq_num
            ⟨info.frame_data, now, info.retries + 1⟩ st.sent_packets
          retransmit_count := st.retransmit_count + 1 },
        log)
    | (r, log) => (r, st, log)

/--
Window-slide loop of process_acks (lines 193-195): while base is a key
of ack_received with value True, delete that key and advance base.
Each iteration removes one binding, so the loop runs at most
ack.length times; fuel ack.length + 1 therefore covers every run of
the Python loop and the fuel-exhausted branch is never taken.
-/
def slide_go : Nat → Nat → List (Nat × Bool) → Nat × List (Nat × Bool)
  | 0, base, ack => (base, ack)
  | fuel + 1, base, ack =>
    if alookup ack base = some true then slide_go fuel (base + 1) (aerase base ack)
    else (base, ack)

def slide_window (base : Nat) (ack : List (Nat × Bool)) : Nat × List (Nat × Bool) :=
  slide_go (ack.length + 1) base ack

/--
Body of process_acks (lines 182-197) for one 4-byte acknowledgment
datagram carrying ack_seq.  The Python condition ack_seq in
ack_received and not ack_received[ack_seq] is alookup = some false.
-/
def process_ack (ack_seq : Nat) (st : SenderState) : SenderState :=
  if alookup st.ack_received ack_seq = some false then
    let slid := slide_window st.base (ainsert ack_seq true st.ack_received)
    { st with
      ack_received := slid.2
      sent_packets := aerase ack_seq st.sent_packets
      base := slid.1 }
  else st

/-- Retransmission condition of check_timeouts (lines 210-212):
current_time - timestamp > 1.0, retries < 3, and the acknowledgment
flag (defaulting to False when absent) not set. -/
def due_for_retransmit (now : Nat) (ack_received : List (Nat × Bool)) (seq_num : Nat)
    (info : PacketInfo) : Bool :=
  decide (info.timestamp + 1 < now) && decide (info.retries < 3) &&
    !(alookup ack_received seq_num).getD false

/--
check_timeouts (lines 204-214): iterate over a snapshot of
sent_packets; for each record older than the 1-unit timeout with fewer
than 3 retries and no acknowledgment, call retransmit_frame.  failOf
gives, per sequence number, the chunk index whose retransmission send
raises.  A crashed retransmission (struct.error) propagates out of the
loop, modeled by the Bool component turning false; the log collects
every packet handed to sendto.
-/
def check_timeouts_go (now : Nat) (failOf : Nat → Option Nat) :
    List (Nat × PacketInfo) → SenderState → Bool × SenderState × List Packet
  | [], st => (true, st, [])
  | (seq_num, info) :: rest, st =>
    if due_for_retransmit now st.ack_received seq_num info then
      match retransmit_frame now seq_num (failOf seq_num) st with
      | (.crashed, st1, log1) => (false, st1, log1)
      | (_, st1, log1) =>
        let r := check_timeouts_go now failOf rest st1
        (r.1, r.2.1, log1 ++ r.2.2)
    else check_timeouts_go now failOf rest st

def check_timeouts (now : Nat) (failOf : Nat → Option Nat) (st : SenderState) :
    Bool × SenderState × List Packet :=
  check_timeouts_go now failOf st.sent_packets st

/-- Reachable sender-engine states: the constructor state followed by
any sequence of the three protocol operations. -/
inductive SenderReachable : SenderState → Prop
  | init (window_size : Nat) : SenderReachable (initSender window_size)
  | step_send (now : Nat) (frame_data : List Nat) (failAt : Option Nat) (st : SenderState) :
      SenderReachable st →
      SenderReachable (send_frame_with_protocol now frame_data failAt st).2.1
  | step_ack (ack_seq : Nat) (st : SenderState) :
      SenderReachable st → SenderReachable (process_ack ack_seq st)
  | step_timeout (now : Nat) (failOf : Nat → Option Nat) (st : SenderState) :
      SenderReachable st → SenderReachable (check_timeouts now failOf st).2.1

/-!
Receiver engine: ScreenCastReceiver from reciver.py.
receive_buffer maps a sequence number to the decoded frame buffered
out of order; frame_chunks maps a sequence number to the per-index
chunk store; frame_total_chunks maps it to the last declared chunk
count.  The JPEG decoder cv2.imdecode is an external collaborator and
is passed in as a function returning none when the bytes do not
decode.
-/

structure ReceiverState where
  expected_seq_num : Nat
  receive_buffer : List (Nat × List Nat)
  frame_chunks : List (Nat × List (Nat × List Nat))
  frame_total_chunks : List (Nat × Nat)
  recv_count : Nat
  duplicate_count : Nat
deriving DecidableEq

def initReceiver : ReceiverState :=
  ⟨0, [], [], [], 0, 0⟩

/-- Chunk-collection loop of reassemble_frame (lines 66-70): walk the
indices 0 .. total-1 in order, appending each stored chunk; a missing
index aborts with none. -/
def collect_chunks (chunks_dict : List (Nat × List Nat)) : Nat → Option (List Nat)
  | 0 => some []
  | n + 1 =>
    match collect_chunks chunks_dict n, alookup chunks_dict n with
    | some acc, some d => some (acc ++ d)
    | _, _ => none

/--
reassemble_frame (lines 52-77): give up unless the chunk store for
seq_num holds exactly total_chunks entries covering every index below
total_chunks; on success delete the partial state for seq_num.
-/
def reassemble_frame (seq_num : Nat) (st : ReceiverState) :
    Option (List Nat) × ReceiverState :=
  match alookup st.frame_chunks seq_num with
  | none => (none, st)
  | some chunks_dict =>
    if chunks_dict.length ≠ (alookup st.frame_total_chunks seq_num).getD 0 then (none, st)
    else
      match collect_chunks chunks_dict ((alookup st.frame_total_chunks seq_num).getD 0) with
      | none => (none, st)
      | some frame_data =>
        (some frame_data,
          { st with
            frame_chunks := aerase seq_num st.frame_chunks
            frame_total_chunks := aerase seq_num st.frame_total_chunks })

/-- Chunk storage step of process_incoming_packets (lines 99-104):
record the chunk data under its index, overwriting any earlier copy,
and record the declared total chunk count. -/
def store_chunk (seq_num chunk_index : Nat) (chunk_data : List Nat) (total_chunks : Nat)
    (st : ReceiverState) : ReceiverState :=
  { st with
    frame_chunks := ainsert seq_num
      (ainsert chunk_index chunk_data ((alookup st.frame_chunks seq_num).getD []))
      st.frame_chunks
    frame_total_chunks := ainsert seq_num total_chunks st.frame_total_chunks }

/-- Store a chunk and immediately attempt reassembly, as
process_incoming_packets does at lines 99-107. -/
def accept_chunk (seq_num chunk_index total_chunks : Nat) (chunk_data : List Nat)
    (st : ReceiverState) : Option (List Nat) × ReceiverState :=
  reassemble_frame seq_num (store_chunk seq_num chunk_index chunk_data total_chunks st)

/--
Buffered-delivery loop of process_incoming_packets (lines 123-126):
while expected_seq_num is a key of receive_buffer, advance it and
count a received frame.  The loop body does not remove the key, so
each iteration needs a distinct key of the buffer and the loop runs at
most receive_buffer.length times; fuel length + 1 covers every run and
the fuel-exhausted branch is never taken.
-/
def drain_go (buf : List (Nat × List Nat)) : Nat → Nat → Nat → Nat × Nat
  | 0, expected, recv => (expected, recv)
  | fuel + 1, expected, recv =>
    if acontains buf expected then drain_go buf fuel (expected + 1) (recv + 1)
    else (expected, recv)

def drain_buffered (buf : List (Nat × List Nat)) (expected recv : Nat) : Nat × Nat :=
  drain_go buf (buf.length + 1) expected recv

structure RecvOutcome where
  delivered : Option (List Nat)
  state : ReceiverState
  acks : List Nat
deriving DecidableEq

/--
Body of process_incoming_packets (lines 85-142) for one data-chunk
datagram whose header already parsed to (seq_num, chunk_index,
total_chunks) with matching declared length.  decode is cv2.imdecode;
when it fails nothing further happens for this datagram.  acks lists
the sequence numbers acknowledged while handling the datagram.
-/
def process_incoming_packet (decode : List Nat → Option (List Nat))
    (seq_num chunk_index total_chunks : Nat) (chunk_data : List Nat)
    (st : ReceiverState) : RecvOutcome :=
  match accept_chunk seq_num chunk_index total_chunks chunk_data st with
  | (none, st1) => ⟨none, st1, []⟩
  | (some frame_data, st1) =>
    match decode frame_data with
    | none => ⟨none, st1, []⟩
    | some frame =>
      if seq_num = st1.expected_seq_num then
        let drained := drain_buffered st1.receive_buffer
          (st1.expected_seq_num + 1) (st1.recv_count + 1)
        ⟨some frame,
          { st1 with expected_seq_num := drained.1, recv_count := drained.2 },
          [seq_num]⟩
      else if st1.expected_seq_num < seq_num then
        ⟨none, { st1 with receive_buffer := ainsert seq_num frame st1.receive_buffer },
          [seq_num]⟩
      else
        ⟨none, { st1 with duplicate_count := st1.duplicate_count + 1 }, [seq_num]⟩


/-- Strengthened sender window invariant: the window bounds of the
claim plus the key discipline of ack_received (unique keys, all lying
in the half-open window [base, next)) that makes the bounds
inductive. -/
def SenderInv (st : SenderState) : Prop :=
  st.base ≤ st.next_seq_num ∧
  st.next_seq_num - st.base ≤ st.window_size ∧
  (akeys st.ack_received).Nodup ∧
  ∀ k ∈ akeys st.ack_received, st.base ≤ k ∧ k < st.next_seq_num

/-- The packets produced by retransmitting the chunk list of a frame:
one packet per chunk in index order, as built at lines 160-162. -/
def chunk_packets (seq_num : Nat) (chunks : List (List Nat)) : List Packet :=
  chunks.enum.map fun p => ⟨p.2.length, seq_num, p.1, chunks.length, p.2⟩

/--
Consistency of the two sender dictionaries, maintained by the code:
every key of ack_received marked False has a live sent_packets record,
every key marked True has none (the record is deleted when the ack
arrives), and every sent_packets key appears in ack_received.  Both
dictionaries are created together at lines 138-143 and pruned together
at lines 186-195.
-/
def sender_maps_linked (st : SenderState) : Prop :=
  (∀ p ∈ st.ack_received, acontains st.sent_packets p.1 = !p.2) ∧
  (∀ p ∈ st.sent_packets, acontains st.ack_received p.1 = true)

/-- Example sender state used by witnesses: frames 0 and 1 were sent,
frame 1 was acknowledged out of order (its record deleted, its flag
True) while frame 0 at the window base is still pending. -/
def exampleSender : SenderState :=
  ⟨5, 2, 0, [(0, ⟨[5], 0, 0⟩)], [(0, false), (1, true)], 2, 0⟩

/-- Example sender state used by witnesses: frame 0 sent at time 0 and
still unacknowledged. -/
def exampleSenderPending : SenderState :=
  ⟨5, 1, 0, [(0, ⟨[5], 0, 0⟩)], [(0, false)], 1, 0⟩

/-- Feed a list of (chunk index, chunk data) arrivals for one frame
through accept_chunk one after another, keeping the final state; used
to state the arrival-order round trip. -/
def accept_list (seq_num total_chunks : Nat) (arrivals : List (Nat × List Nat))
    (st : ReceiverState) : ReceiverState :=
  arrivals.foldl (fun s p => (accept_chunk seq_num p.1 total_chunks p.2 s).2) st

/-- The dictionary obtained by inserting each (index, data) pair of the
list in order into an empty dictionary. -/
def buildMap (l : List (Nat × List Nat)) : List (Nat × List Nat) :=
  l.foldl (fun m p => ainsert p.1 p.2 m) []

/-! Lemmas about the association-list dictionary model. -/

theorem alookup_ainsert_self (m : List (Nat × α)) (k : Nat) (v : α) :
    alookup (ainsert k v m) k = some v := by
  induction m with
  | nil => simp [ainsert, alookup]
  | cons p rest ih =>
    obtain ⟨k', v'⟩ := p
    by_cases h : k' = k <;> simp [ainsert, alookup, h, ih]

theorem alookup_ainsert_ne (m : List (Nat × α)) {k k' : Nat} (v : α) (h : k' ≠ k) :
    alookup (ainsert k v m) k' = alookup m k' := by
  have h' : k ≠ k' := Ne.symm h
  induction m with
  | nil => simp [ainsert, alookup, h']
  | cons p rest ih =>
    obtain ⟨k₀, v₀⟩ := p
    by_cases h₀ : k₀ = k
    · subst h₀
      simp [ainsert, alookup, h']
    · simp [ainsert, alookup, h₀, ih]

theorem alookup_aerase_ne (m : List (Nat × α)) {k k' : Nat} (h : k' ≠ k) :
    alookup (aerase k m) k' = alookup m k' := by
  have h' : k ≠ k' := Ne.symm h
  induction m with
  | nil => simp [aerase]
  | cons p rest ih =>
    obtain ⟨k₀, v₀⟩ := p
    by_cases h₀ : k₀ = k
    · subst h₀
      simp [aerase, alookup, h']
    · simp [aerase, alookup, h₀, ih]

theorem mem_akeys_iff (m : List (Nat × α)) (k : Nat) :
    k ∈ akeys m ↔ (alookup m k).isSome := by
  induction m with
  | nil => simp [akeys, alookup]
  | cons p rest ih =>
    obtain ⟨k₀, v₀⟩ := p
    show k ∈ k₀ :: akeys rest ↔ _
    by_cases h₀ : k₀ = k
    · subst h₀
      simp [alookup]
    · rw [List.mem_cons]
      simp only [alookup, if_neg h₀]
      constructor
      · rintro (h | h)
        · exact absurd h.symm h₀
        · exact ih.1 h
      · intro h
        exact Or.inr (ih.2 h)

theorem alookup_aerase_self (m : List (Nat × α)) (k : Nat) (h : (akeys m).Nodup) :
    alookup (aerase k m) k = none := by
  induction m with
  | nil => simp [aerase, alookup]
  | cons p rest ih =>
    obtain ⟨k₀, v₀⟩ := p
    simp only [akeys, List.map_cons, List.nodup_cons] at h
    by_cases h₀ : k₀ = k
    · subst h₀
      simp only [aerase, if_pos rfl]
      cases ho : alookup rest k₀ with
      | none => exact ho
      | some v =>
        exfalso
        exact h.1 ((mem_akeys_iff rest k₀).2 (by simp [ho]))
    · simp [aerase, alookup, h₀, ih h.2]

theorem akeys_aerase_sublist (m : List (Nat × α)) (k : Nat) :
    (akeys (aerase k m)).Sublist (akeys m) := by
  induction m with
  | nil => simp [aerase, akeys]
  | cons p rest ih =>
    obtain ⟨k₀, v₀⟩ := p
    by_cases h₀ : k₀ = k
    · simp only [aerase, if_pos h₀, akeys, List.map_cons]
      exact (List.sublist_cons_self _ _)
    · simp only [aerase, if_neg h₀, akeys, List.map_cons]
      exact ih.cons₂ _

theorem mem_akeys_aerase (m : List (Nat × α)) {k k' : Nat} (h : k' ∈ akeys (aerase k m)) :
    k' ∈ akeys m :=
  (akeys_aerase_sublist m k).mem h

theorem nodup_akeys_aerase (m : List (Nat × α)) (k : Nat) (h : (akeys m).Nodup) :
    (akeys (aerase k m)).Nodup :=
  h.sublist (akeys_aerase_sublist m k)

theorem not_mem_akeys_aerase (m : List (Nat × α)) (k : Nat) (h : (akeys m).Nodup) :
    k ∉ akeys (aerase k m) := by
  intro hmem
  have := (mem_akeys_iff _ k).1 hmem
  rw [alookup_aerase_self m k h] at this
  simp at this

theorem length_aerase_lt (m : List (Nat × α)) (k : Nat) (h : (alookup m k).isSome) :
    (aerase k m).length < m.length := by
  induction m with
  | nil => simp [alookup] at h
  | cons p rest ih =>
    obtain ⟨k₀, v₀⟩ := p
    by_cases h₀ : k₀ = k
    · simp [aerase, h₀]
    · simp only [alookup, if_neg h₀] at h
      simp only [aerase, if_neg h₀, List.length_cons]
      exact Nat.succ_lt_succ (ih h)

theorem akeys_ainsert_of_mem (m : List (Nat × α)) (k : Nat) (v : α)
    (h : (alookup m k).isSome) : akeys (ainsert k v m) = akeys m := by
  induction m with
  | nil => simp [alookup] at h
  | cons p rest ih =>
    obtain ⟨k₀, v₀⟩ := p
    by_cases h₀ : k₀ = k
    · subst h₀
      simp [ainsert, akeys]
    · simp only [alookup, if_neg h₀] at h
      simp [ainsert, akeys, h₀, ih h] at *
      simpa [akeys] using ih h

theorem akeys_ainsert_of_not_mem (m : List (Nat × α)) (k : Nat) (v : α)
    (h : ¬ (alookup m k).isSome) : akeys (ainsert k v m) = akeys m ++ [k] := by
  induction m with
  | nil => simp [ainsert, akeys]
  | cons p rest ih =>
    obtain ⟨k₀, v₀⟩ := p
    by_cases h₀ : k₀ = k
    · subst h₀
      simp [alookup] at h
    · simp only [alookup, if_neg h₀] at h
      simp [ainsert, akeys, h₀] at *
      simpa [akeys] using ih h

theorem nodup_akeys_ainsert (m : List (Nat × α)) (k : Nat) (v : α)
    (h : (akeys m).Nodup) : (akeys (ainsert k v m)).Nodup := by
  by_cases hm : (alookup m k).isSome
  · rw [akeys_ainsert_of_mem m k v hm]; exact h
  · rw [akeys_ainsert_of_not_mem m k v hm]
    refine List.Nodup.append h (by simp) ?_
    intro a ha hb
    simp at hb
    subst hb
    exact hm ((mem_akeys_iff m a).1 ha)

theorem length_ainsert_of_mem (m : List (Nat × α)) (k : Nat) (v : α)
    (h : (alookup m k).isSome) : (ainsert k v m).length = m.length := by
  have := akeys_ainsert_of_mem m k v h
  have h1 : (akeys (ainsert k v m)).length = (akeys m).length := by rw [this]
  simpa [akeys] using h1

theorem length_ainsert_of_not_mem (m : List (Nat × α)) (k : Nat) (v : α)
    (h : ¬ (alookup m k).isSome) : (ainsert k v m).length = m.length + 1 := by
  have := akeys_ainsert_of_not_mem m k v h
  have h1 : (akeys (ainsert k v m)).length = (akeys m).length + 1 := by simp [this]
  simpa [akeys] using h1

theorem ainsert_ainsert_self (m : List (Nat × α)) (k : Nat) (v : α) :
    ainsert k v (ainsert k v m) = ainsert k v m := by
  induction m with
  | nil => simp [ainsert]
  | cons p rest ih =>
    obtain ⟨k₀, v₀⟩ := p
    by_cases h₀ : k₀ = k <;> simp [ainsert, h₀, ih]

theorem ainsert_eq_self_of_lookup (m : List (Nat × α)) (k : Nat) (v : α)
    (h : alookup m k = some v) : ainsert k v m = m := by
  induction m with
  | nil => simp [alookup] at h
  | cons p rest ih =>
    obtain ⟨k₀, v₀⟩ := p
    by_cases h₀ : k₀ = k
    · subst h₀
      simp [alookup] at h
      subst h
      simp [ainsert]
    · rw [alookup, if_neg h₀] at h
      simp [ainsert, h₀, ih h]

theorem aerase_of_not_mem (m : List (Nat × α)) (k : Nat)
    (h : ¬ (alookup m k).isSome) : aerase k m = m := by
  induction m with
  | nil => simp [aerase]
  | cons p rest ih =>
    obtain ⟨k₀, v₀⟩ := p
    by_cases h₀ : k₀ = k
    · subst h₀
      simp [alookup] at h
    · simp only [alookup, if_neg h₀] at h
      simp [aerase, h₀, ih h]


/-! Lemmas about the fragmenter. -/

theorem split_chunk_take_eq (frame_data : List Nat) (C i : Nat) :
    (frame_data.drop (i * C)).take
        (min ((i + 1) * C) frame_data.length - i * C) =
      (frame_data.drop (i * C)).take C := by
  have hsm : (i + 1) * C = i * C + C := Nat.succ_mul i C
  rw [List.take_eq_take]
  simp only [List.length_take, List.length_drop]
  omega

theorem split_eq_map_take (frame_data : List Nat) (C : Nat)
    (h : ¬ frame_data.length ≤ C) :
    split_large_frame frame_data C =
      (List.range ((frame_data.length + C - 1) / C)).map fun i =>
        (frame_data.drop (i * C)).take C := by
  rw [split_large_frame, if_neg h]
  exact List.map_congr_left fun i _ => split_chunk_take_eq frame_data C i

theorem join_map_take_drop (C : Nat) (hC : 0 < C) :
    ∀ (n : Nat) (data : List Nat), data.length ≤ n * C →
      ((List.range n).map fun i => (data.drop (i * C)).take C).flatten = data := by
  intro n
  induction n with
  | zero =>
    intro data h
    simp at h
    simp [h]
  | succ n ih =>
    intro data h
    have hsm : (n + 1) * C = n * C + C := Nat.succ_mul n C
    rw [List.range_succ_eq_map]
    simp only [List.map_cons, List.map_map, List.flatten_cons]
    have hzero : (data.drop (0 * C)).take C = data.take C := by simp
    have hrest : ∀ i : Nat, (data.drop ((i + 1) * C)).take C =
        ((data.drop C).drop (i * C)).take C := by
      intro i
      rw [List.drop_drop]
      congr 1
      ring
    have hmap : (List.range n).map ((fun i => (data.drop (i * C)).take C) ∘ Nat.succ) =
        (List.range n).map fun i => ((data.drop C).drop (i * C)).take C := by
      refine List.map_congr_left fun i _ => ?_
      simpa [Function.comp, Nat.succ_eq_add_one] using hrest i
    rw [hzero, hmap, ih (data.drop C) (by simp only [List.length_drop]; omega)]
    exact List.take_append_drop C data

theorem length_le_ceil_mul (L C : Nat) (hC : 0 < C) :
    L ≤ ((L + C - 1) / C) * C := by
  rcases Nat.eq_zero_or_pos L with hL | hL
  · simp [hL]
  · rw [Nat.mul_comm]
    have hdm := Nat.div_add_mod (L + C - 1) C
    have hmod : (L + C - 1) % C < C := Nat.mod_lt _ hC
    omega

theorem split_join (frame_data : List Nat) (C : Nat) (hC : 0 < C) :
    (split_large_frame frame_data C).flatten = frame_data := by
  by_cases h : frame_data.length ≤ C
  · simp [split_large_frame, h]
  · rw [split_eq_map_take frame_data C h]
    exact join_map_take_drop C hC _ frame_data (length_le_ceil_mul _ _ hC)

theorem split_length (frame_data : List Nat) (C : Nat) (hC : 0 < C) :
    (split_large_frame frame_data C).length =
      max 1 ((frame_data.length + C - 1) / C) := by
  by_cases h : frame_data.length ≤ C
  · rw [split_large_frame, if_pos h]
    have hle : (frame_data.length + C - 1) / C < 2 := by
      rw [Nat.div_lt_iff_lt_mul hC]
      omega
    simp only [List.length_cons, List.length_nil]
    omega
  · rw [split_eq_map_take frame_data C h]
    have hge : 1 ≤ (frame_data.length + C - 1) / C := by
      rw [Nat.le_div_iff_mul_le hC]
      omega
    simp only [List.length_map, List.length_range]
    omega

theorem split_single (frame_data : List Nat) (C : Nat) (h : frame_data.length ≤ C) :
    split_large_frame frame_data C = [frame_data] := by
  rw [split_large_frame, if_pos h]

theorem split_ne_nil (frame_data : List Nat) (C : Nat) (hC : 0 < C) :
    split_large_frame frame_data C ≠ [] := by
  intro hnil
  have := split_length frame_data C hC
  rw [hnil] at this
  simp at this
  omega

theorem split_chunk_length_le (frame_data : List Nat) (C : Nat) :
    ∀ c ∈ split_large_frame frame_data C, c.length ≤ C := by
  intro c hc
  rw [split_large_frame] at hc
  by_cases h : frame_data.length ≤ C
  · rw [if_pos h] at hc
    simp at hc
    subst hc
    exact h
  · rw [if_neg h] at hc
    simp only [List.mem_map, List.mem_range] at hc
    obtain ⟨i, _, rfl⟩ := hc
    calc ((frame_data.drop (i * C)).take
            (min ((i + 1) * C) frame_data.length - i * C)).length
        ≤ min ((i + 1) * C) frame_data.length - i * C := List.length_take_le _ _
      _ ≤ (i + 1) * C - i * C := by
          have := Nat.min_le_left ((i + 1) * C) frame_data.length
          omega
      _ ≤ C := by
          have : i * C ≤ (i + 1) * C := Nat.mul_le_mul_right _ (Nat.le_succ i)
          have h2 : (i + 1) * C = i * C + C := by ring
          omega

/-! Basic facts about the packing and transmission loops. -/

theorem mkPacket_some (a s i c : Nat) (d : List Nat) (p : Packet)
    (h : mkPacket a s i c d = some p) : p = ⟨a, s, i, c, d⟩ := by
  simp only [mkPacket] at h
  split_ifs at h <;> simp_all

theorem send_chunks_seq (seq_num total_chunks : Nat) (failAt : Option Nat) :
    ∀ l, ∀ p ∈ (send_chunks seq_num total_chunks failAt l).2, p.seq_num = seq_num := by
  intro l
  induction l with
  | nil => simp [send_chunks]
  | cons hd rest ih =>
    obtain ⟨i, c⟩ := hd
    intro p hp
    rw [send_chunks] at hp
    cases hm : mkPacket c.length seq_num i total_chunks c with
    | none => rw [hm] at hp; simp at hp
    | some q =>
      rw [hm] at hp
      by_cases h1 : 65507 < 10 + c.length
      · simp [h1] at hp
      · by_cases h2 : failAt = some i
        · simp [h1, h2] at hp
        · simp only [if_neg h1, if_neg h2, List.mem_cons] at hp
          rcases hp with hp | hp
          · subst hp
            rw [mkPacket_some _ _ _ _ _ _ hm]
          · exact ih p hp

/-- Claim C1.  The spec says that when frame 1 arrives after frames 0
and 2 (with expected starting at 0), the buffered frame 2 is removed
from the reorder buffer and delivered as a separate delivery event,
leaving expected = 3 and the buffer empty.  The code does advance
expected past the buffered key and counts it as received, but it never
deletes the key from receive_buffer and never returns the buffered
payload: after the scenario the buffer still holds the entry (2, frame2)
even though 2 is below expected, and only the frame that arrived in
this call is delivered.  This theorem evaluates the model on the exact
scenario of the claim. -/
theorem C1_drain_never_removes_or_delivers :
    (process_incoming_packet (fun b => some b) 0 0 1 [10] initReceiver).delivered
        = some [10] ∧
    (process_incoming_packet (fun b => some b) 0 0 1 [10] initReceiver).state.expected_seq_num
        = 1 ∧
    (process_incoming_packet (fun b => some b) 2 0 1 [12]
        (process_incoming_packet (fun b => some b) 0 0 1 [10] initReceiver).state).delivered
        = none ∧
    (process_incoming_packet (fun b => some b) 1 0 1 [11]
        (process_incoming_packet (fun b => some b) 2 0 1 [12]
          (process_incoming_packet (fun b => some b) 0 0 1 [10] initReceiver).state).state).delivered
        = some [11] ∧
    (process_incoming_packet (fun b => some b) 1 0 1 [11]
        (process_incoming_packet (fun b => some b) 2 0 1 [12]
          (process_incoming_packet (fun b => some b) 0 0 1 [10] initReceiver).state).state).state.expected_seq_num
        = 3 ∧
    (process_incoming_packet (fun b => some b) 1 0 1 [11]
        (process_incoming_packet (fun b => some b) 2 0 1 [12]
          (process_incoming_packet (fun b => some b) 0 0 1 [10] initReceiver).state).state).state.receive_buffer
        = [(2, [12])] := by
  decide

/-- Claim C3 counterexample.  The claim asserts chunk count equals the
ceiling of L / C for every L, including L = 0; but on the empty
payload with C = 1 the code returns one chunk while the ceiling is 0. -/
theorem C3_counterexample :
    (split_large_frame [] 1).length ≠ (List.length ([] : List Nat) + 1 - 1) / 1 := by
  decide

/-- Claim C3 (amended).  For C at least 1, split yields
max 1 (ceil (L / C)) chunks, that is ceil (L / C) chunks whenever the
payload is nonempty and a single chunk for the empty payload;
concatenating the chunks in index order reproduces the payload, and a
payload of length at most C yields the single chunk equal to it. -/
theorem C3_split_contract (payload : List Nat) (C : Nat) (hC : 1 ≤ C) :
    (split_large_frame payload C).length = max 1 ((payload.length + C - 1) / C) ∧
    (split_large_frame payload C).flatten = payload ∧
    (payload.length ≤ C → split_large_frame payload C = [payload]) :=
  ⟨split_length payload C hC, split_join payload C hC, fun h => split_single payload C h⟩

theorem C3_witness :
    1 ≤ 2 ∧
    ((split_large_frame [1, 2, 3] 2).length
        = max 1 ((List.length ([1, 2, 3] : List Nat) + 2 - 1) / 2) ∧
      (split_large_frame [1, 2, 3] 2).flatten = [1, 2, 3] ∧
      (List.length ([1, 2, 3] : List Nat) ≤ 2 →
        split_large_frame [1, 2, 3] 2 = [[1, 2, 3]])) :=
  ⟨by decide, C3_split_contract [1, 2, 3] 2 (by decide)⟩

/-- Claim C7.  When the window is full (next minus base at least the
window size) a send attempt returns failure with the whole sender
state unchanged and nothing transmitted. -/
theorem C7_window_full (now : Nat) (frame_data : List Nat) (failAt : Option Nat)
    (st : SenderState) (h : st.window_size ≤ st.next_seq_num - st.base) :
    send_frame_with_protocol now frame_data failAt st = (.failed, st, []) := by
  rw [send_frame_with_protocol, if_pos h]

theorem C7_witness :
    (initSender 0).window_size ≤ (initSender 0).next_seq_num - (initSender 0).base ∧
    send_frame_with_protocol 0 [1] none (initSender 0) = (.failed, initSender 0, []) :=
  ⟨by decide, C7_window_full 0 [1] none (initSender 0) (by decide)⟩

/-- Claim C10.  Whenever a send attempt does not complete (window
full, a chunk whose packet would exceed the datagram limit, a packing
error, or a transport failure partway through the chunk loop), the
sender state is exactly the state before the attempt - in particular
next_seq_num is not incremented - while every chunk already handed to
the transport bears that same reused sequence number. -/
theorem C10_failed_send_leaves_state (now : Nat) (frame_data : List Nat)
    (failAt : Option Nat) (st : SenderState)
    (h : (send_frame_with_protocol now frame_data failAt st).1 ≠ .sent) :
    (send_frame_with_protocol now frame_data failAt st).2.1 = st ∧
    ∀ p ∈ (send_frame_with_protocol now frame_data failAt st).2.2,
      p.seq_num = st.next_seq_num := by
  rw [send_frame_with_protocol] at h ⊢
  by_cases hw : st.window_size ≤ st.next_seq_num - st.base
  · rw [if_pos hw]
    exact ⟨rfl, by simp⟩
  · rw [if_neg hw] at h ⊢
    rcases hsc : send_chunks st.next_seq_num (split_large_frame frame_data 60000).length
        failAt (split_large_frame frame_data 60000).enum with ⟨res, log⟩
    rw [hsc] at h
    have hlog : ∀ p ∈ log, p.seq_num = st.next_seq_num := by
      intro p hp
      have h2 := send_chunks_seq st.next_seq_num (split_large_frame frame_data 60000).length
        failAt (split_large_frame frame_data 60000).enum p
      rw [hsc] at h2
      exact h2 hp
    cases res with
    | sent => exact absurd rfl h
    | failed => exact ⟨rfl, hlog⟩
    | crashed => exact ⟨rfl, hlog⟩

theorem C10_witness :
    (send_frame_with_protocol 0 [7] (some 0) (initSender 5)).1 ≠ .sent ∧
    ((send_frame_with_protocol 0 [7] (some 0) (initSender 5)).2.1 = initSender 5 ∧
      ∀ p ∈ (send_frame_with_protocol 0 [7] (some 0) (initSender 5)).2.2,
        p.seq_num = (initSender 5).next_seq_num) :=
  ⟨by decide, C10_failed_send_leaves_state 0 [7] (some 0) (initSender 5) (by decide)⟩

/-- Claim C8 counterexample.  The claim says every fully reassembled
frame is acked unconditionally; but the code only sends the ack inside
the branch where the decoder returned a frame, so a completing chunk
whose payload the decoder rejects produces no acknowledgment at all:
here the single chunk [7] completes reassembly, yet with a decoder
returning none the receiver sends no ack. -/
theorem C8_counterexample :
    (accept_chunk 0 0 1 [7] initReceiver).1 = some [7] ∧
    (process_incoming_packet (fun _ => none) 0 0 1 [7] initReceiver).acks = [] := by
  decide

/-- Claim C8 (amended).  For every incoming chunk whose arrival
completes reassembly of a frame and whose reassembled payload the
decoder accepts, the receiver sends exactly one acknowledgment for
that sequence number, before and independently of the sequencing
decision: the state st and hence the relation of seq_num to the
expected sequence number is arbitrary, so the ack is sent whether the
sequence number is equal to, greater than, or less than expected. -/
theorem C8_ack_on_completion (decode : List Nat → Option (List Nat))
    (seq_num chunk_index total_chunks : Nat) (chunk_data frame_data frame : List Nat)
    (st : ReceiverState)
    (hc : (accept_chunk seq_num chunk_index total_chunks chunk_data st).1 = some frame_data)
    (hd : decode frame_data = some frame) :
    (process_incoming_packet decode seq_num chunk_index total_chunks chunk_data st).acks
      = [seq_num] := by
  rcases hAC : accept_chunk seq_num chunk_index total_chunks chunk_data st with ⟨o, st1⟩
  rw [hAC] at hc
  simp only at hc
  subst hc
  simp only [process_incoming_packet, hAC, hd]
  split_ifs <;> rfl

theorem C8_witness :
    (accept_chunk 0 0 1 [7] initReceiver).1 = some [7] ∧
    (fun b : List Nat => some b) [7] = some [7] ∧
    (process_incoming_packet (fun b : List Nat => some b) 0 0 1 [7] initReceiver).acks
      = [0] :=
  ⟨by decide, rfl,
    C8_ack_on_completion (fun b : List Nat => some b) 0 0 1 [7] [7] [7] initReceiver
      (by decide) rfl⟩

theorem send_chunks_crash_of_big_count (seq_num total_chunks : Nat) (failAt : Option Nat)
    (i : Nat) (c : List Nat) (rest : List (Nat × List Nat)) (h : 256 ≤ total_chunks) :
    send_chunks seq_num total_chunks failAt ((i, c) :: rest) = (.crashed, []) := by
  rw [send_chunks, mkPacket, if_pos h]

theorem send_chunks_data_mem (seq_num total_chunks : Nat) (failAt : Option Nat) :
    ∀ l, ∀ p ∈ (send_chunks seq_num total_chunks failAt l).2, ∃ ic ∈ l, p.data = ic.2 := by
  intro l
  induction l with
  | nil => simp [send_chunks]
  | cons hd rest ih =>
    obtain ⟨i, c⟩ := hd
    intro p hp
    rw [send_chunks] at hp
    cases hm : mkPacket c.length seq_num i total_chunks c with
    | none => rw [hm] at hp; simp at hp
    | some q =>
      rw [hm] at hp
      by_cases h1 : 65507 < 10 + c.length
      · simp [h1] at hp
      · by_cases h2 : failAt = some i
        · simp [h1, h2] at hp
        · simp only [if_neg h1, if_neg h2, List.mem_cons] at hp
          rcases hp with hp | hp
          · subst hp
            refine ⟨(i, c), List.mem_cons_self _ _, ?_⟩
            rw [mkPacket_some _ _ _ _ _ _ hm]
          · obtain ⟨ic, hic, hdata⟩ := ih p hp
            exact ⟨ic, List.mem_cons_of_mem _ hic, hdata⟩

/-- Claim C9 counterexample.  The claim says a send attempt whose chunk
count would exceed 255 fails with OversizeFrame and is reported to the
caller as a failed send.  In the code there is no chunk-count check:
struct.pack raises an uncaught struct.error because the count does not
fit the 1-byte header field, so on a payload of 15300001 bytes (256
chunks of 60000 bytes) the attempt ends in the crashed outcome - an
exception escaping the method - rather than the False return that
reports a failed send; no record is created and nothing is sent. -/
theorem C9_counterexample :
    send_frame_with_protocol 0 (List.replicate 15300001 0) none (initSender 5)
      = (.crashed, initSender 5, []) := by
  have hw : ¬ (initSender 5).window_size ≤
      (initSender 5).next_seq_num - (initSender 5).base := by decide
  have hcnt : (split_large_frame (List.replicate 15300001 (0 : Nat)) 60000).length = 256 := by
    rw [split_length _ _ (by norm_num), List.length_replicate]
    norm_num
  have hne : (split_large_frame (List.replicate 15300001 (0 : Nat)) 60000).enum ≠ [] := by
    intro hnil
    rw [List.enum_eq_nil] at hnil
    rw [hnil] at hcnt
    exact absurd hcnt (by norm_num)
  obtain ⟨⟨i, c⟩, rest, henum⟩ := List.exists_cons_of_ne_nil hne
  rw [send_frame_with_protocol, if_neg hw, henum, hcnt,
    send_chunks_crash_of_big_count _ _ _ _ _ _ (by norm_num)]

/-- Claim C9 (amended).  A payload splitting into more than 255 chunks
makes the header packing of the very first chunk raise an uncaught
struct.error (the 1-byte chunk-count field cannot hold the count): the
attempt ends in the crashed outcome with the sender state exactly as
before - no record created, next_seq_num not incremented, so the frame
never enters the window and is not retried - and no chunk transmitted.
The per-chunk size guard returning a plain failed send when a packet
would exceed 65507 bytes can never fire, because with the fixed
60000-byte maximum chunk size every transmitted packet carries at most
60000 data bytes and so at most 60010 bytes on the wire. -/
theorem C9_oversize_frame (now : Nat) (frame_data : List Nat) (failAt : Option Nat)
    (st : SenderState) :
    (¬ st.window_size ≤ st.next_seq_num - st.base →
      255 < (split_large_frame frame_data 60000).length →
      send_frame_with_protocol now frame_data failAt st = (.crashed, st, [])) ∧
    (∀ p ∈ (send_frame_with_protocol now frame_data failAt st).2.2,
      10 + p.data.length ≤ 60010) := by
  constructor
  · intro hw hcnt
    have hne : (split_large_frame frame_data 60000).enum ≠ [] := by
      intro hnil
      rw [List.enum_eq_nil] at hnil
      rw [hnil] at hcnt
      exact absurd hcnt (by norm_num)
    obtain ⟨⟨i, c⟩, rest, henum⟩ := List.exists_cons_of_ne_nil hne
    rw [send_frame_with_protocol, if_neg hw, henum,
      send_chunks_crash_of_big_count _ _ _ _ _ _ (by omega)]
  · intro p hp
    rw [send_frame_with_protocol] at hp
    by_cases hw : st.window_size ≤ st.next_seq_num - st.base
    · rw [if_pos hw] at hp
      simp at hp
    · rw [if_neg hw] at hp
      rcases hsc : send_chunks st.next_seq_num (split_large_frame frame_data 60000).length
          failAt (split_large_frame frame_data 60000).enum with ⟨res, log⟩
      rw [hsc] at hp
      have hplog : p ∈ log := by
        cases res <;> simpa using hp
      have hmem := send_chunks_data_mem st.next_seq_num
        (split_large_frame frame_data 60000).length failAt
        (split_large_frame frame_data 60000).enum p
      rw [hsc] at hmem
      obtain ⟨ic, hic, hdata⟩ := hmem hplog
      have hc2 : ic.2 ∈ split_large_frame frame_data 60000 := by
        obtain ⟨i, c⟩ := ic
        have hz : (i, c) ∈ (List.range (split_large_frame frame_data 60000).length).zip
            (split_large_frame frame_data 60000) := by
          rwa [← List.enum_eq_zip_range]
        exact (List.of_mem_zip hz).2
      have := split_chunk_length_le frame_data 60000 ic.2 hc2
      rw [hdata]
      omega

theorem C9_witness :
    (¬ (initSender 5).window_size ≤
        (initSender 5).next_seq_num - (initSender 5).base) ∧
    255 < (split_large_frame (List.replicate 15300001 0) 60000).length ∧
    send_frame_with_protocol 3 (List.replicate 15300001 0) none (initSender 5)
      = (.crashed, initSender 5, []) ∧
    ∀ p ∈ (send_frame_with_protocol 3 (List.replicate 15300001 0) none (initSender 5)).2.2,
      10 + p.data.length ≤ 60010 := by
  have hw : ¬ (initSender 5).window_size ≤
      (initSender 5).next_seq_num - (initSender 5).base := by decide
  have hcnt : 255 < (split_large_frame (List.replicate 15300001 (0 : Nat)) 60000).length := by
    rw [split_length _ _ (by norm_num), List.length_replicate]
    norm_num
  exact ⟨hw, hcnt,
    (C9_oversize_frame 3 (List.replicate 15300001 0) none (initSender 5)).1 hw hcnt,
    (C9_oversize_frame 3 (List.replicate 15300001 0) none (initSender 5)).2⟩

/-! Lemmas about the window slide and the ack bookkeeping. -/

theorem alookup_mem (m : List (Nat × α)) (k : Nat) (v : α)
    (h : alookup m k = some v) : (k, v) ∈ m := by
  induction m with
  | nil => simp [alookup] at h
  | cons p rest ih =>
    obtain ⟨k₀, v₀⟩ := p
    by_cases h₀ : k₀ = k
    · subst h₀
      simp [alookup] at h
      subst h
      exact List.mem_cons_self _ _
    · rw [alookup, if_neg h₀] at h
      exact List.mem_cons_of_mem _ (ih h)

theorem linked_lookup_iff (st : SenderState) (hlink : sender_maps_linked st) (k : Nat) :
    (alookup st.sent_packets k).isSome ↔ alookup st.ack_received k = some false := by
  constructor
  · intro h
    obtain ⟨v, hv⟩ := Option.isSome_iff_exists.1 h
    have hmem := alookup_mem _ _ _ hv
    have hc := hlink.2 (k, v) hmem
    rw [acontains] at hc
    obtain ⟨b, hb⟩ := Option.isSome_iff_exists.1 hc
    have hb2 := hlink.1 (k, b) (alookup_mem _ _ _ hb)
    rw [acontains, h] at hb2
    cases b with
    | false => exact hb
    | true => simp at hb2
  · intro h
    have hb2 := hlink.1 (k, false) (alookup_mem _ _ _ h)
    rw [acontains] at hb2
    simp at hb2
    exact hb2

theorem slide_go_base_le : ∀ (fuel base : Nat) (ack : List (Nat × Bool)),
    base ≤ (slide_go fuel base ack).1 := by
  intro fuel
  induction fuel with
  | zero => intro b a; exact Nat.le_refl b
  | succ n ih =>
    intro b a
    rw [slide_go]
    by_cases h : alookup a b = some true
    · rw [if_pos h]
      exact Nat.le_trans (Nat.le_succ b) (ih (b + 1) _)
    · rw [if_neg h]

theorem slide_window_stop (base : Nat) (ack : List (Nat × Bool))
    (h : ¬ alookup ack base = some true) : slide_window base ack = (base, ack) := by
  rw [slide_window, slide_go, if_neg h]

/-- Full characterization of the slide loop: with enough fuel (every
iteration deletes a present key, so the list length bounds the
iteration count), the loop passes exactly over the contiguous run of
keys marked True starting at base - every slot between the old and the
new base is acknowledged in the map the loop started from - and stops
at the first slot that is not.  Lookups at slots not yet passed are
unaffected by the deletions of earlier slots. -/
theorem slide_go_spec : ∀ (fuel b : Nat) (ack : List (Nat × Bool)),
    ack.length < fuel →
    (∀ k, b ≤ k → k < (slide_go fuel b ack).1 → alookup ack k = some true) ∧
    ¬ alookup ack (slide_go fuel b ack).1 = some true := by
  intro fuel
  induction fuel with
  | zero =>
    intro b ack hlen
    exact absurd hlen (Nat.not_lt_zero _)
  | succ n ih =>
    intro b ack hlen
    by_cases h : alookup ack b = some true
    · rw [slide_go, if_pos h]
      have hlt := length_aerase_lt ack b (by rw [h]; rfl)
      have hrec := ih (b + 1) (aerase b ack) (by omega)
      have hble : b + 1 ≤ (slide_go n (b + 1) (aerase b ack)).1 := slide_go_base_le _ _ _
      constructor
      · intro k hk1 hk2
        rcases Nat.eq_or_lt_of_le hk1 with hk | hk
        · exact hk ▸ h
        · have hne : k ≠ b := by omega
          have hk3 := hrec.1 k (by omega) hk2
          rwa [alookup_aerase_ne _ hne] at hk3
      · intro hcontra
        have hne : (slide_go n (b + 1) (aerase b ack)).1 ≠ b := by omega
        apply hrec.2
        rw [alookup_aerase_ne _ hne]
        exact hcontra
    · rw [slide_go, if_neg h]
      exact ⟨fun k hk1 hk2 => (Nat.lt_irrefl b (Nat.lt_of_le_of_lt hk1 hk2)).elim, h⟩

/-- Claim C6.  An acknowledgment for a sequence number with no live
record (already removed after an earlier ack, or never sent) is
ignored with literally no state change; otherwise the record is marked
acknowledged and removed, and base advances contiguously exactly as the
while-loop prescribes: it never decreases, every sequence number
between the old and the new base is acknowledged-and-removed in the
marked acknowledgment map (base increased by one through each of
them), the new base is the first slot that is not acknowledged - so in
particular an acknowledged base strictly advances - and an ack for a
sequence number other than an unacknowledged base leaves base exactly
where it was (head-of-line blocking).  The hypotheses state the
dictionary consistency the code maintains: unique keys and the
sent-record/ack-flag linkage. -/
theorem C6_process_ack (ack_seq : Nat) (st : SenderState)
    (hnd : (akeys st.sent_packets).Nodup)
    (hlink : sender_maps_linked st) :
    (alookup st.sent_packets ack_seq = none → process_ack ack_seq st = st) ∧
    ((alookup st.sent_packets ack_seq).isSome →
      alookup (process_ack ack_seq st).sent_packets ack_seq = none ∧
      st.base ≤ (process_ack ack_seq st).base ∧
      (process_ack ack_seq st).next_seq_num = st.next_seq_num ∧
      (∀ k, st.base ≤ k → k < (process_ack ack_seq st).base →
        alookup (ainsert ack_seq true st.ack_received) k = some true) ∧
      ¬ alookup (ainsert ack_seq true st.ack_received)
          (process_ack ack_seq st).base = some true ∧
      (alookup (ainsert ack_seq true st.ack_received) st.base = some true →
        st.base < (process_ack ack_seq st).base) ∧
      (ack_seq ≠ st.base → (alookup st.sent_packets st.base).isSome →
        (process_ack ack_seq st).base = st.base)) := by
  constructor
  · intro hnone
    have hno : ¬ alookup st.ack_received ack_seq = some false := by
      intro hsome
      have := (linked_lookup_iff st hlink ack_seq).2 hsome
      rw [hnone] at this
      simp at this
    rw [process_ack, if_neg hno]
  · intro hsome
    have hack : alookup st.ack_received ack_seq = some false :=
      (linked_lookup_iff st hlink ack_seq).1 hsome
    rw [process_ack, if_pos hack]
    have hspec := slide_go_spec ((ainsert ack_seq true st.ack_received).length + 1)
      st.base (ainsert ack_seq true st.ack_received) (Nat.lt_succ_self _)
    have hspec1 : ∀ k, st.base ≤ k →
        k < (slide_window st.base (ainsert ack_seq true st.ack_received)).1 →
        alookup (ainsert ack_seq true st.ack_received) k = some true := hspec.1
    have hspec2 : ¬ alookup (ainsert ack_seq true st.ack_received)
        (slide_window st.base (ainsert ack_seq true st.ack_received)).1 = some true :=
      hspec.2
    refine ⟨?_, ?_, rfl, ?_, ?_, ?_, ?_⟩
    · exact alookup_aerase_self _ _ hnd
    · exact slide_go_base_le _ _ _
    · exact hspec1
    · exact hspec2
    · intro hb
      by_contra hnot
      push_neg at hnot
      have heq : (slide_window st.base (ainsert ack_seq true st.ack_received)).1 =
          st.base :=
        Nat.le_antisymm hnot (slide_go_base_le _ _ _)
      apply hspec2
      rw [heq]
      exact hb
    · intro hne hbase
      have hbf : alookup st.ack_received st.base = some false :=
        (linked_lookup_iff st hlink st.base).1 hbase
      have hstep : alookup (ainsert ack_seq true st.ack_received) st.base = some false := by
        rw [alookup_ainsert_ne _ _ (Ne.symm hne), hbf]
      have hstop := slide_window_stop st.base (ainsert ack_seq true st.ack_received)
        (by rw [hstep]; simp)
      simp only [hstop]

theorem C6_witness :
    ((akeys exampleSender.sent_packets).Nodup ∧ sender_maps_linked exampleSender ∧
      alookup exampleSender.sent_packets 7 = none ∧
      (alookup exampleSender.sent_packets 0).isSome ∧
      alookup (ainsert 0 true exampleSender.ack_received) exampleSender.base
        = some true) ∧
    process_ack 7 exampleSender = exampleSender ∧
    exampleSender.base < (process_ack 0 exampleSender).base :=
  ⟨⟨by decide, ⟨by decide, by decide⟩, by decide, by decide, by decide⟩,
    (C6_process_ack 7 exampleSender (by decide) ⟨by decide, by decide⟩).1 (by decide),
    ((C6_process_ack 0 exampleSender (by decide)
      ⟨by decide, by decide⟩).2 (by decide)).2.2.2.2.2.1 (by decide)⟩

/-! Preservation of the window invariant by the three operations. -/

theorem slide_go_inv : ∀ (fuel b next w : Nat) (ack : List (Nat × Bool)),
    b ≤ next → next - b ≤ w → (akeys ack).Nodup →
    (∀ k ∈ akeys ack, b ≤ k ∧ k < next) →
    (slide_go fuel b ack).1 ≤ next ∧ next - (slide_go fuel b ack).1 ≤ w ∧
    (akeys (slide_go fuel b ack).2).Nodup ∧
    (∀ k ∈ akeys (slide_go fuel b ack).2, (slide_go fuel b ack).1 ≤ k ∧ k < next) := by
  intro fuel
  induction fuel with
  | zero =>
    intro b next w ack h1 h2 h3 h4
    exact ⟨h1, h2, h3, h4⟩
  | succ n ih =>
    intro b next w ack h1 h2 h3 h4
    by_cases h : alookup ack b = some true
    · rw [slide_go, if_pos h]
      have hbmem : b ∈ akeys ack := (mem_akeys_iff _ _).2 (by rw [h]; rfl)
      have hblt : b < next := (h4 b hbmem).2
      refine ih (b + 1) next w (aerase b ack) hblt (by omega)
        (nodup_akeys_aerase _ _ h3) ?_
      intro k hk
      have hmem := mem_akeys_aerase _ hk
      have hbd := h4 k hmem
      have hne : k ≠ b := by
        intro hkb
        subst hkb
        exact not_mem_akeys_aerase _ _ h3 hk
      omega
    · rw [slide_go, if_neg h]
      exact ⟨h1, h2, h3, h4⟩

theorem send_frame_inv (now : Nat) (frame_data : List Nat) (failAt : Option Nat)
    (st : SenderState) (h : SenderInv st) :
    SenderInv (send_frame_with_protocol now frame_data failAt st).2.1 := by
  rw [send_frame_with_protocol]
  by_cases hw : st.window_size ≤ st.next_seq_num - st.base
  · rw [if_pos hw]
    exact h
  · rw [if_neg hw]
    rcases hsc : send_chunks st.next_seq_num (split_large_frame frame_data 60000).length
        failAt (split_large_frame frame_data 60000).enum with ⟨res, log⟩
    obtain ⟨h1, h2, h3, h4⟩ := h
    cases res with
    | failed => exact ⟨h1, h2, h3, h4⟩
    | crashed => exact ⟨h1, h2, h3, h4⟩
    | sent =>
      have hnmem : ¬ (alookup st.ack_received st.next_seq_num).isSome := by
        intro hmem
        have := (h4 st.next_seq_num ((mem_akeys_iff _ _).2 hmem)).2
        omega
      have hkeys := akeys_ainsert_of_not_mem st.ack_received st.next_seq_num false hnmem
      refine ⟨by simp; omega, by simp; omega, ?_, ?_⟩
      · show (akeys (ainsert st.next_seq_num false st.ack_received)).Nodup
        rw [hkeys]
        refine List.Nodup.append h3 (by simp) ?_
        intro a ha hb
        simp at hb
        subst hb
        exact hnmem ((mem_akeys_iff _ _).1 ha)
      · show ∀ k ∈ akeys (ainsert st.next_seq_num false st.ack_received), _
        rw [hkeys]
        intro k hk
        rcases List.mem_append.1 hk with hk | hk
        · have := h4 k hk
          simp
          omega
        · simp at hk
          subst hk
          simp
          omega

theorem process_ack_inv (ack_seq : Nat) (st : SenderState) (h : SenderInv st) :
    SenderInv (process_ack ack_seq st) := by
  rw [process_ack]
  by_cases hc : alookup st.ack_received ack_seq = some false
  · rw [if_pos hc]
    obtain ⟨h1, h2, h3, h4⟩ := h
    have hmem : (alookup st.ack_received ack_seq).isSome := by rw [hc]; rfl
    have hkeys := akeys_ainsert_of_mem st.ack_received ack_seq true hmem
    have hinv := slide_go_inv ((ainsert ack_seq true st.ack_received).length + 1)
      st.base st.next_seq_num st.window_size (ainsert ack_seq true st.ack_received)
      h1 h2 (by rw [hkeys]; exact h3) (by rw [hkeys]; exact h4)
    exact ⟨hinv.1, hinv.2.1, hinv.2.2.1, hinv.2.2.2⟩
  · rw [if_neg hc]
    exact h

theorem retransmit_frame_fields (now seq_num : Nat) (failAt : Option Nat)
    (st : SenderState) :
    (retransmit_frame now seq_num failAt st).2.1.base = st.base ∧
    (retransmit_frame now seq_num failAt st).2.1.next_seq_num = st.next_seq_num ∧
    (retransmit_frame now seq_num failAt st).2.1.ack_received = st.ack_received ∧
    (retransmit_frame now seq_num failAt st).2.1.window_size = st.window_size := by
  rw [retransmit_frame]
  cases hl : alookup st.sent_packets seq_num with
  | none => exact ⟨rfl, rfl, rfl, rfl⟩
  | some info =>
    dsimp only
    rcases hrc : retransmit_chunks seq_num (split_large_frame info.frame_data 60000).length
        failAt (split_large_frame info.frame_data 60000).enum with ⟨res, log⟩
    cases res with
    | sent => exact ⟨rfl, rfl, rfl, rfl⟩
    | failed => exact ⟨rfl, rfl, rfl, rfl⟩
    | crashed => exact ⟨rfl, rfl, rfl, rfl⟩

theorem check_timeouts_go_fields (now : Nat) (failOf : Nat → Option Nat) :
    ∀ (l : List (Nat × PacketInfo)) (st : SenderState),
    (check_timeouts_go now failOf l st).2.1.base = st.base ∧
    (check_timeouts_go now failOf l st).2.1.next_seq_num = st.next_seq_num ∧
    (check_timeouts_go now failOf l st).2.1.ack_received = st.ack_received ∧
    (check_timeouts_go now failOf l st).2.1.window_size = st.window_size := by
  intro l
  induction l with
  | nil =>
    intro st
    exact ⟨rfl, rfl, rfl, rfl⟩
  | cons hd rest ih =>
    obtain ⟨seq_num, info⟩ := hd
    intro st
    rw [check_timeouts_go]
    by_cases hdue : due_for_retransmit now st.ack_received seq_num info
    · rw [if_pos hdue]
      rcases hrf : retransmit_frame now seq_num (failOf seq_num) st with ⟨res, st1, log1⟩
      have hf := retransmit_frame_fields now seq_num (failOf seq_num) st
      rw [hrf] at hf
      cases res with
      | crashed => exact hf
      | sent =>
        have hr := ih st1
        exact ⟨hr.1.trans hf.1, hr.2.1.trans hf.2.1, hr.2.2.1.trans hf.2.2.1,
          hr.2.2.2.trans hf.2.2.2⟩
      | failed =>
        have hr := ih st1
        exact ⟨hr.1.trans hf.1, hr.2.1.trans hf.2.1, hr.2.2.1.trans hf.2.2.1,
          hr.2.2.2.trans hf.2.2.2⟩
    · rw [if_neg hdue]
      exact ih st

theorem check_timeouts_inv (now : Nat) (failOf : Nat → Option Nat) (st : SenderState)
    (h : SenderInv st) : SenderInv (check_timeouts now failOf st).2.1 := by
  have hf := check_timeouts_go_fields now failOf st.sent_packets st
  rw [check_timeouts]
  rw [SenderInv, hf.1, hf.2.1, hf.2.2.1, hf.2.2.2]
  exact h

theorem reachable_inv (st : SenderState) (h : SenderReachable st) : SenderInv st := by
  induction h with
  | init w =>
    refine ⟨Nat.le_refl 0, by simp [initSender], by simp [initSender, akeys], ?_⟩
    intro k hk
    simp [initSender, akeys] at hk
  | step_send now frame_data failAt st _ ih => exact send_frame_inv now frame_data failAt st ih
  | step_ack ack_seq st _ ih => exact process_ack_inv ack_seq st ih
  | step_timeout now failOf st _ ih => exact check_timeouts_inv now failOf st ih

theorem send_frame_base_eq (now : Nat) (frame_data : List Nat) (failAt : Option Nat)
    (st : SenderState) :
    (send_frame_with_protocol now frame_data failAt st).2.1.base = st.base := by
  rw [send_frame_with_protocol]
  by_cases hw : st.window_size ≤ st.next_seq_num - st.base
  · rw [if_pos hw]
  · rw [if_neg hw]
    rcases hsc : send_chunks st.next_seq_num (split_large_frame frame_data 60000).length
        failAt (split_large_frame frame_data 60000).enum with ⟨res, log⟩
    cases res with
    | sent => rfl
    | failed => rfl
    | crashed => rfl

theorem process_ack_base_le (ack_seq : Nat) (st : SenderState) :
    st.base ≤ (process_ack ack_seq st).base := by
  rw [process_ack]
  by_cases hc : alookup st.ack_received ack_seq = some false
  · rw [if_pos hc]
    exact slide_go_base_le _ _ _
  · rw [if_neg hc]

/-- Claim C2.  In every reachable sender state the window bounds hold
(base at most next, next minus base at most the window size), and base
never decreases under any of the three operations: a send attempt, an
acknowledgment, and a timeout check. -/
theorem C2_window_invariant (st : SenderState) (h : SenderReachable st) :
    (st.base ≤ st.next_seq_num ∧ st.next_seq_num - st.base ≤ st.window_size) ∧
    (∀ (now : Nat) (frame_data : List Nat) (failAt : Option Nat),
      st.base ≤ (send_frame_with_protocol now frame_data failAt st).2.1.base) ∧
    (∀ ack_seq : Nat, st.base ≤ (process_ack ack_seq st).base) ∧
    (∀ (now : Nat) (failOf : Nat → Option Nat),
      st.base ≤ (check_timeouts now failOf st).2.1.base) := by
  have hinv := reachable_inv st h
  refine ⟨⟨hinv.1, hinv.2.1⟩, ?_, ?_, ?_⟩
  · intro now frame_data failAt
    rw [send_frame_base_eq]
  · intro ack_seq
    exact process_ack_base_le ack_seq st
  · intro now failOf
    rw [check_timeouts, (check_timeouts_go_fields now failOf st.sent_packets st).1]

theorem C2_witness :
    SenderReachable (initSender 5) ∧
    ((initSender 5).base ≤ (initSender 5).next_seq_num ∧
      (initSender 5).next_seq_num - (initSender 5).base ≤ (initSender 5).window_size) ∧
    (initSender 5).base ≤ (send_frame_with_protocol 0 [3] none (initSender 5)).2.1.base ∧
    (initSender 5).base ≤ (process_ack 0 (initSender 5)).base ∧
    (initSender 5).base ≤ (check_timeouts 1 (fun _ => none) (initSender 5)).2.1.base := by
  have h : SenderReachable (initSender 5) := SenderReachable.init 5
  have hc := C2_window_invariant (initSender 5) h
  exact ⟨h, hc.1, hc.2.1 0 [3] none, hc.2.2.1 0, hc.2.2.2 1 (fun _ => none)⟩

/-! Lemmas about retransmission. -/

theorem alookup_of_mem_nodup (m : List (Nat × α)) (h : (akeys m).Nodup) (k : Nat) (v : α)
    (hm : (k, v) ∈ m) : alookup m k = some v := by
  induction m with
  | nil => simp at hm
  | cons p rest ih =>
    obtain ⟨k₀, v₀⟩ := p
    simp only [akeys, List.map_cons, List.nodup_cons] at h
    rcases List.mem_cons.1 hm with hm | hm
    · cases hm
      simp [alookup]
    · have hk : k ∈ akeys rest := by
        rw [akeys, List.mem_map]
        exact ⟨(k, v), hm, rfl⟩
      have hne : k₀ ≠ k := fun he => h.1 (he ▸ hk)
      rw [alookup, if_neg hne]
      exact ih h.2 hm

theorem mkPacket_isSome (a s i c : Nat) (d : List Nat)
    (hc : c ≤ 255) (hi : i < 256) (hs : s < 2 ^ 32) (ha : a < 2 ^ 32) :
    mkPacket a s i c d = some ⟨a, s, i, c, d⟩ := by
  rw [mkPacket, if_neg (by omega), if_neg (by omega), if_neg (by omega), if_neg (by omega)]

theorem mem_enum_facts (l : List α) (p : Nat × α) (hp : p ∈ l.enum) :
    p.1 < l.length ∧ p.2 ∈ l := by
  obtain ⟨i, a⟩ := p
  rw [List.enum_eq_zip_range] at hp
  have h := List.of_mem_zip hp
  exact ⟨List.mem_range.1 h.1, h.2⟩

theorem retransmit_chunks_ok (seq_num total_chunks : Nat)
    (hs : seq_num < 2 ^ 32) (hc : total_chunks ≤ 255) :
    ∀ l : List (Nat × List Nat),
    (∀ p ∈ l, p.1 < 256 ∧ p.2.length < 2 ^ 32) →
    retransmit_chunks seq_num total_chunks none l =
      (.sent, l.map fun p => ⟨p.2.length, seq_num, p.1, total_chunks, p.2⟩) := by
  intro l
  induction l with
  | nil => intro _; rfl
  | cons hd rest ih =>
    obtain ⟨i, c⟩ := hd
    intro hall
    have h1 := hall (i, c) (List.mem_cons_self _ _)
    rw [retransmit_chunks, mkPacket_isSome _ _ _ _ _ hc h1.1 hs h1.2]
    dsimp only
    rw [if_neg (by simp : ¬ (none : Option Nat) = some i)]
    rw [ih fun p hp => hall p (List.mem_cons_of_mem _ hp)]
    rfl

theorem retransmit_frame_ok (now seq_num : Nat) (st : SenderState) (info : PacketInfo)
    (hl : alookup st.sent_packets seq_num = some info)
    (hs : seq_num < 2 ^ 32)
    (hc : (split_large_frame info.frame_data 60000).length ≤ 255) :
    retransmit_frame now seq_num none st =
      (.sent,
        { st with
          sent_packets := ainsert seq_num
            ⟨info.frame_data, now, info.retries + 1⟩ st.sent_packets
          retransmit_count := st.retransmit_count + 1 },
        chunk_packets seq_num (split_large_frame info.frame_data 60000)) := by
  rw [retransmit_frame, hl]
  dsimp only
  rw [retransmit_chunks_ok _ _ hs hc _ ?facts]
  case facts =>
    intro p hp
    have h := mem_enum_facts _ p hp
    have hlen := split_chunk_length_le info.frame_data 60000 p.2 h.2
    constructor
    · omega
    · norm_num
      omega
  rfl

theorem check_timeouts_go_spec (now : Nat) (failOf : Nat → Option Nat)
    (hfail : ∀ s, failOf s = none) :
    ∀ (l : List (Nat × PacketInfo)) (st : SenderState),
    (l.map Prod.fst).Nodup →
    (∀ p ∈ l, alookup st.sent_packets p.1 = some p.2) →
    (∀ p ∈ l, p.1 < 2 ^ 32 ∧ (split_large_frame p.2.frame_data 60000).length ≤ 255) →
    (check_timeouts_go now failOf l st).1 = true ∧
    (∀ k, k ∉ l.map Prod.fst →
      alookup (check_timeouts_go now failOf l st).2.1.sent_packets k =
        alookup st.sent_packets k) ∧
    (∀ p ∈ l,
      (due_for_retransmit now st.ack_received p.1 p.2 = true →
        alookup (check_timeouts_go now failOf l st).2.1.sent_packets p.1 =
          some ⟨p.2.frame_data, now, p.2.retries + 1⟩) ∧
      (due_for_retransmit now st.ack_received p.1 p.2 = false →
        alookup (check_timeouts_go now failOf l st).2.1.sent_packets p.1 = some p.2)) ∧
    (check_timeouts_go now failOf l st).2.2 =
      (l.map fun p =>
        if due_for_retransmit now st.ack_received p.1 p.2 = true
        then chunk_packets p.1 (split_large_frame p.2.frame_data 60000) else []).flatten := by
  intro l
  induction l with
  | nil =>
    intro st _ _ _
    exact ⟨rfl, fun k _ => rfl, by simp, rfl⟩
  | cons hd rest ih =>
    obtain ⟨seq_num, info⟩ := hd
    intro st hnd hlk hwf
    simp only [List.map_cons, List.nodup_cons] at hnd
    have hl0 : alookup st.sent_packets seq_num = some info :=
      hlk (seq_num, info) (List.mem_cons_self _ _)
    have hwf0 := hwf (seq_num, info) (List.mem_cons_self _ _)
    rw [check_timeouts_go]
    by_cases hdue : due_for_retransmit now st.ack_received seq_num info = true
    · rw [if_pos hdue, hfail seq_num,
        retransmit_frame_ok now seq_num st info hl0 hwf0.1 hwf0.2]
      dsimp only
      set st1 : SenderState :=
        { st with
          sent_packets := ainsert seq_num
            ⟨info.frame_data, now, info.retries + 1⟩ st.sent_packets
          retransmit_count := st.retransmit_count + 1 } with hst1
      have hack1 : st1.ack_received = st.ack_received := rfl
      have hlk1 : ∀ p ∈ rest, alookup st1.sent_packets p.1 = some p.2 := by
        intro p hp
        have hne : p.1 ≠ seq_num := by
          intro he
          exact hnd.1 (he ▸ List.mem_map_of_mem Prod.fst hp)
        show alookup (ainsert seq_num _ st.sent_packets) p.1 = some p.2
        rw [alookup_ainsert_ne _ _ hne]
        exact hlk p (List.mem_cons_of_mem _ hp)
      obtain ⟨ih1, ih2, ih3, ih4⟩ := ih st1 hnd.2 hlk1
        (fun p hp => hwf p (List.mem_cons_of_mem _ hp))
      refine ⟨ih1, ?_, ?_, ?_⟩
      · intro k hk
        simp only [List.map_cons, List.mem_cons] at hk
        push_neg at hk
        rw [ih2 k hk.2]
        show alookup (ainsert seq_num _ st.sent_packets) k = _
        rw [alookup_ainsert_ne _ _ hk.1]
      · intro p hp
        rcases List.mem_cons.1 hp with hp | hp
        · cases hp
          constructor
          · intro _
            have hseqnot : seq_num ∉ rest.map Prod.fst := hnd.1
            rw [ih2 seq_num hseqnot]
            show alookup (ainsert seq_num _ st.sent_packets) seq_num = _
            rw [alookup_ainsert_self]
          · intro hfalse
            rw [hdue] at hfalse
            exact absurd hfalse (by simp)
        · have := ih3 p hp
          rw [hack1] at this
          exact this
      · rw [ih4, hack1]
        simp only [List.map_cons, List.flatten_cons, hdue, if_pos]
    · rw [if_neg hdue]
      obtain ⟨ih1, ih2, ih3, ih4⟩ := ih st hnd.2
        (fun p hp => hlk p (List.mem_cons_of_mem _ hp))
        (fun p hp => hwf p (List.mem_cons_of_mem _ hp))
      have hduef : due_for_retransmit now st.ack_received seq_num info = false := by
        simpa using hdue
      refine ⟨ih1, ?_, ?_, ?_⟩
      · intro k hk
        simp only [List.map_cons, List.mem_cons] at hk
        push_neg at hk
        exact ih2 k hk.2
      · intro p hp
        rcases List.mem_cons.1 hp with hp | hp
        · cases hp
          constructor
          · intro htrue
            rw [hduef] at htrue
            exact absurd htrue (by simp)
          · intro _
            rw [ih2 seq_num hnd.1]
            exact hl0
        · exact ih3 p hp
      · rw [ih4]
        simp only [List.map_cons, List.flatten_cons, hduef]
        simp

/-- Claim C5.  Under a healthy transport, check_timeouts retransmits
exactly the unacknowledged records older than the 1-unit timeout that
still have retries below 3: each such record is re-fragmented from the
stored original payload and all its chunk packets are resent (the
transmission log is precisely the concatenation, in iteration order, of
the chunk packets of the due frames), its timestamp becomes the current
time and its retries grows by exactly one; every other record - in
particular one whose retries reached 3 - is left untouched and remains
in the window, and no record is ever dropped.  The hypotheses state
what holds for every record the sender ever stores: unique keys, a
sequence number fitting the 4-byte header field, and a chunk count
fitting the 1-byte header field. -/
theorem C5_check_timeouts (now : Nat) (st : SenderState)
    (hnd : (akeys st.sent_packets).Nodup)
    (hwf : ∀ p ∈ st.sent_packets,
      p.1 < 2 ^ 32 ∧ (split_large_frame p.2.frame_data 60000).length ≤ 255) :
    (check_timeouts now (fun _ => none) st).1 = true ∧
    (check_timeouts now (fun _ => none) st).2.1.base = st.base ∧
    (check_timeouts now (fun _ => none) st).2.1.next_seq_num = st.next_seq_num ∧
    (∀ p ∈ st.sent_packets,
      (due_for_retransmit now st.ack_received p.1 p.2 = true →
        alookup (check_timeouts now (fun _ => none) st).2.1.sent_packets p.1 =
          some ⟨p.2.frame_data, now, p.2.retries + 1⟩) ∧
      (due_for_retransmit now st.ack_received p.1 p.2 = false →
        alookup (check_timeouts now (fun _ => none) st).2.1.sent_packets p.1 = some p.2)) ∧
    (check_timeouts now (fun _ => none) st).2.2 =
      (st.sent_packets.map fun p =>
        if due_for_retransmit now st.ack_received p.1 p.2 = true
        then chunk_packets p.1 (split_large_frame p.2.frame_data 60000) else []).flatten := by
  have hspec := check_timeouts_go_spec now (fun _ => none) (fun _ => rfl)
    st.sent_packets st hnd
    (fun p hp => alookup_of_mem_nodup st.sent_packets hnd p.1 p.2 hp) hwf
  have hfields := check_timeouts_go_fields now (fun _ => none) st.sent_packets st
  rw [check_timeouts]
  exact ⟨hspec.1, hfields.1, hfields.2.1, hspec.2.2.1, hspec.2.2.2⟩

theorem C5_witness :
    ((akeys exampleSenderPending.sent_packets).Nodup ∧
      ∀ p ∈ exampleSenderPending.sent_packets,
        p.1 < 2 ^ 32 ∧ (split_large_frame p.2.frame_data 60000).length ≤ 255) ∧
    (check_timeouts 3 (fun _ => none) exampleSenderPending).1 = true ∧
    alookup (check_timeouts 3 (fun _ => none) exampleSenderPending).2.1.sent_packets 0 =
      some ⟨[5], 3, 1⟩ ∧
    (check_timeouts 3 (fun _ => none) exampleSenderPending).2.2 =
      chunk_packets 0 (split_large_frame [5] 60000) := by
  have hnd : (akeys exampleSenderPending.sent_packets).Nodup := by decide
  have hwf : ∀ p ∈ exampleSenderPending.sent_packets,
      p.1 < 2 ^ 32 ∧ (split_large_frame p.2.frame_data 60000).length ≤ 255 := by decide
  have hc := C5_check_timeouts 3 exampleSenderPending hnd hwf
  refine ⟨⟨hnd, hwf⟩, hc.1, ?_, ?_⟩
  · exact (hc.2.2.2.1 (0, ⟨[5], 0, 0⟩) (by decide)).1 (by decide)
  · rw [hc.2.2.2.2]
    decide

/-! Lemmas about reassembly. -/

theorem collect_chunks_isSome_iff (m : List (Nat × List Nat)) :
    ∀ n, (collect_chunks m n).isSome ↔ ∀ j < n, (alookup m j).isSome := by
  intro n
  induction n with
  | zero => simp [collect_chunks]
  | succ n ih =>
    rw [collect_chunks]
    cases hc : collect_chunks m n with
    | none =>
      constructor
      · intro h
        cases hl : alookup m n <;> rw [hl] at h <;> simp at h
      · intro h
        exfalso
        have h2 := ih.2 fun j hj => h j (Nat.lt_succ_of_lt hj)
        rw [hc] at h2
        simp at h2
    | some acc =>
      cases hl : alookup m n with
      | none =>
        constructor
        · intro h
          simp at h
        · intro h
          have h2 := h n (Nat.lt_succ_self n)
          rw [hl] at h2
          simp at h2
      | some d =>
        constructor
        · intro _ j hj
          rcases Nat.lt_succ_iff_lt_or_eq.1 hj with hj | hj
          · exact (ih.1 (by rw [hc]; simp)) j hj
          · subst hj
            rw [hl]
            simp
        · intro _
          simp

theorem collect_chunks_eq (m : List (Nat × List Nat)) (chunks : List (List Nat)) :
    ∀ n, n ≤ chunks.length → (∀ j, j < n → alookup m j = chunks[j]?) →
      collect_chunks m n = some (chunks.take n).flatten := by
  intro n
  induction n with
  | zero =>
    intro _ _
    simp [collect_chunks]
  | succ n ih =>
    intro hn hall
    have hn' : n < chunks.length := by omega
    rw [collect_chunks, ih (by omega) (fun j hj => hall j (by omega)),
      hall n (Nat.lt_succ_self n), List.getElem?_eq_getElem hn']
    dsimp only
    have htake : List.take (n + 1) chunks = List.take n chunks ++ [chunks[n]] := by
      rw [List.take_succ, List.getElem?_eq_getElem hn']
      rfl
    rw [htake, List.flatten_append]
    simp

theorem lookup_full_range_iff (m : List (Nat × List Nat)) (cnt : Nat)
    (hnd : (akeys m).Nodup) :
    (m.length = cnt ∧ ∀ j < cnt, (alookup m j).isSome) ↔
    (∀ j, (alookup m j).isSome ↔ j < cnt) := by
  constructor
  · rintro ⟨hlen, hall⟩ j
    constructor
    · intro hj
      have hmem : j ∈ akeys m := (mem_akeys_iff _ _).2 hj
      have hsub : Finset.range cnt ⊆ (akeys m).toFinset := by
        intro x hx
        rw [List.mem_toFinset]
        exact (mem_akeys_iff _ _).2 (hall x (Finset.mem_range.1 hx))
      have hcard : (akeys m).toFinset.card = cnt := by
        rw [List.toFinset_card_of_nodup hnd]
        simp [akeys, hlen]
      have heq : Finset.range cnt = (akeys m).toFinset :=
        Finset.eq_of_subset_of_card_le hsub (by rw [hcard, Finset.card_range])
      have hj2 : j ∈ Finset.range cnt := by
        rw [heq, List.mem_toFinset]
        exact hmem
      exact Finset.mem_range.1 hj2
    · exact hall j
  · intro hiff
    constructor
    · have hset : (akeys m).toFinset = Finset.range cnt := by
        ext x
        rw [List.mem_toFinset, mem_akeys_iff, Finset.mem_range]
        exact hiff x
      have hcard := List.toFinset_card_of_nodup hnd
      rw [hset, Finset.card_range] at hcard
      simpa [akeys] using hcard.symm
    · intro j hj
      exact (hiff j).2 hj

theorem store_chunk_lookup (seq_num chunk_index : Nat) (chunk_data : List Nat)
    (total_chunks : Nat) (st : ReceiverState) :
    alookup (store_chunk seq_num chunk_index chunk_data total_chunks st).frame_chunks
        seq_num =
      some (ainsert chunk_index chunk_data ((alookup st.frame_chunks seq_num).getD [])) ∧
    alookup (store_chunk seq_num chunk_index chunk_data total_chunks st).frame_total_chunks
        seq_num = some total_chunks :=
  ⟨alookup_ainsert_self _ _ _, alookup_ainsert_self _ _ _⟩

theorem reassemble_spec (seq_num : Nat) (st : ReceiverState) (m : List (Nat × List Nat))
    (hm : alookup st.frame_chunks seq_num = some m) :
    reassemble_frame seq_num st =
      if m.length = (alookup st.frame_total_chunks seq_num).getD 0 then
        match collect_chunks m ((alookup st.frame_total_chunks seq_num).getD 0) with
        | none => (none, st)
        | some frame_data =>
          (some frame_data,
            { st with
              frame_chunks := aerase seq_num st.frame_chunks
              frame_total_chunks := aerase seq_num st.frame_total_chunks })
      else (none, st) := by
  rw [reassemble_frame, hm]
  dsimp only
  by_cases h : m.length = (alookup st.frame_total_chunks seq_num).getD 0
  · rw [if_neg (by omega), if_pos h]
  · rw [if_pos h, if_neg h]

theorem reassemble_none_state (seq_num : Nat) (st : ReceiverState)
    (h : (reassemble_frame seq_num st).1 = none) : (reassemble_frame seq_num st).2 = st := by
  rw [reassemble_frame] at h ⊢
  cases hm : alookup st.frame_chunks seq_num with
  | none => rfl
  | some m =>
    rw [hm] at h
    dsimp only at h ⊢
    by_cases hlen : m.length ≠ (alookup st.frame_total_chunks seq_num).getD 0
    · rw [if_pos hlen]
    · rw [if_neg hlen] at h ⊢
      cases hcol : collect_chunks m ((alookup st.frame_total_chunks seq_num).getD 0) with
      | none => rfl
      | some fd =>
        rw [hcol] at h
        simp at h

theorem reassemble_some_state (seq_num : Nat) (st : ReceiverState) (fd : List Nat)
    (h : (reassemble_frame seq_num st).1 = some fd) :
    (reassemble_frame seq_num st).2.frame_chunks = aerase seq_num st.frame_chunks ∧
    (reassemble_frame seq_num st).2.frame_total_chunks =
      aerase seq_num st.frame_total_chunks := by
  rw [reassemble_frame] at h ⊢
  cases hm : alookup st.frame_chunks seq_num with
  | none =>
    rw [hm] at h
    simp at h
  | some m =>
    rw [hm] at h
    dsimp only at h ⊢
    by_cases hlen : m.length ≠ (alookup st.frame_total_chunks seq_num).getD 0
    · rw [if_pos hlen] at h
      simp at h
    · rw [if_neg hlen] at h ⊢
      cases hcol : collect_chunks m ((alookup st.frame_total_chunks seq_num).getD 0) with
      | none =>
        rw [hcol] at h
        simp at h
      | some fd2 =>
        exact ⟨rfl, rfl⟩

theorem mem_akeys_ainsert (m : List (Nat × α)) (k0 k : Nat) (v : α) :
    k ∈ akeys (ainsert k0 v m) ↔ k ∈ akeys m ∨ k = k0 := by
  by_cases hc : (alookup m k0).isSome
  · rw [akeys_ainsert_of_mem _ _ _ hc]
    constructor
    · exact Or.inl
    · rintro (h | h)
      · exact h
      · subst h
        exact (mem_akeys_iff _ _).2 hc
  · rw [akeys_ainsert_of_not_mem _ _ _ hc]
    simp

theorem buildMap_append (l : List (Nat × List Nat)) (x : Nat × List Nat) :
    buildMap (l ++ [x]) = ainsert x.1 x.2 (buildMap l) := by
  rw [buildMap, buildMap, List.foldl_append]
  rfl

theorem mem_akeys_buildMap (l : List (Nat × List Nat)) (k : Nat) :
    k ∈ akeys (buildMap l) ↔ k ∈ l.map Prod.fst := by
  induction l using List.reverseRecOn with
  | nil => simp [buildMap, akeys]
  | append_singleton l x ih =>
    rw [buildMap_append, mem_akeys_ainsert]
    simp [ih]

theorem alookup_buildMap_of_mem (l : List (Nat × List Nat))
    (hnd : (l.map Prod.fst).Nodup) (k : Nat) (v : List Nat) (hm : (k, v) ∈ l) :
    alookup (buildMap l) k = some v := by
  induction l using List.reverseRecOn with
  | nil => simp at hm
  | append_singleton l x ih =>
    rw [buildMap_append]
    rw [List.map_append, List.nodup_append] at hnd
    rcases List.mem_append.1 hm with hm | hm
    · have hk : k ∈ l.map Prod.fst := List.mem_map_of_mem Prod.fst hm
      have hne : k ≠ x.1 := by
        intro he
        exact hnd.2.2 hk (by simp [he])
      rw [alookup_ainsert_ne _ _ hne]
      exact ih hnd.1 hm
    · simp at hm
      obtain ⟨hk, hv⟩ : k = x.1 ∧ v = x.2 := by
        obtain ⟨a, b⟩ := x
        simp at hm
        exact ⟨hm.1, hm.2⟩
      subst hk
      subst hv
      exact alookup_ainsert_self _ _ _

theorem length_buildMap (l : List (Nat × List Nat)) (hnd : (l.map Prod.fst).Nodup) :
    (buildMap l).length = l.length := by
  induction l using List.reverseRecOn with
  | nil => rfl
  | append_singleton l x ih =>
    rw [buildMap_append]
    rw [List.map_append, List.nodup_append] at hnd
    have hx : x.1 ∉ l.map Prod.fst := by
      intro hk
      exact hnd.2.2 hk (by simp)
    have hnot : ¬ (alookup (buildMap l) x.1).isSome := by
      intro hc
      exact hx ((mem_akeys_buildMap l x.1).1 ((mem_akeys_iff _ _).2 hc))
    rw [length_ainsert_of_not_mem _ _ _ hnot, ih hnd.1]
    simp

theorem accept_list_append (seq_num n : Nat) (pre : List (Nat × List Nat))
    (x : Nat × List Nat) (st : ReceiverState) :
    accept_list seq_num n (pre ++ [x]) st =
      (accept_chunk seq_num x.1 n x.2 (accept_list seq_num n pre st)).2 := by
  rw [accept_list, accept_list, List.foldl_append]
  rfl

theorem accept_list_state (seq_num n : Nat) :
    ∀ (pre : List (Nat × List Nat)),
    (pre.map Prod.fst).Nodup → pre.length < n →
    (accept_list seq_num n pre initReceiver).frame_chunks =
      (if pre.isEmpty then [] else [(seq_num, buildMap pre)]) ∧
    (accept_list seq_num n pre initReceiver).frame_total_chunks =
      (if pre.isEmpty then [] else [(seq_num, n)]) := by
  intro pre
  induction pre using List.reverseRecOn with
  | nil =>
    intro _ _
    exact ⟨rfl, rfl⟩
  | append_singleton l x ih =>
    intro hnd hlen
    rw [List.map_append, List.nodup_append] at hnd
    have hl : l.length < n := by
      have := hlen
      simp at this
      omega
    obtain ⟨ihc, iht⟩ := ih hnd.1 hl
    rw [accept_list_append]
    set S := accept_list seq_num n l initReceiver with hS
    have hm0 : (alookup S.frame_chunks seq_num).getD [] = buildMap l := by
      by_cases he : l.isEmpty
      · rw [ihc, if_pos he]
        have : l = [] := by
          cases l
          · rfl
          · simp at he
        rw [this]
        rfl
      · rw [ihc, if_neg he]
        simp [alookup]
    have hstore1 : (store_chunk seq_num x.1 x.2 n S).frame_chunks =
        ainsert seq_num (buildMap (l ++ [x])) S.frame_chunks := by
      rw [store_chunk]
      rw [hm0, buildMap_append]
    have hchunks1 : (store_chunk seq_num x.1 x.2 n S).frame_chunks =
        [(seq_num, buildMap (l ++ [x]))] := by
      rw [hstore1]
      by_cases he : l.isEmpty
      · rw [ihc, if_pos he]
        rfl
      · rw [ihc, if_neg he]
        simp [ainsert]
    have htot1 : (store_chunk seq_num x.1 x.2 n S).frame_total_chunks =
        [(seq_num, n)] := by
      rw [store_chunk]
      by_cases he : l.isEmpty
      · rw [iht, if_pos he]
        rfl
      · rw [iht, if_neg he]
        simp [ainsert]
    have hnd2 : ((l ++ [x]).map Prod.fst).Nodup := by
      rw [List.map_append, List.nodup_append]
      exact hnd
    have hlen1 : (buildMap (l ++ [x])).length = l.length + 1 := by
      rw [length_buildMap _ hnd2]
      simp
    have hlookup : alookup (store_chunk seq_num x.1 x.2 n S).frame_chunks seq_num =
        some (buildMap (l ++ [x])) := by
      rw [hchunks1]
      simp [alookup]
    have htlookup : (alookup
        (store_chunk seq_num x.1 x.2 n S).frame_total_chunks seq_num).getD 0 = n := by
      rw [htot1]
      simp [alookup]
    have hne : (buildMap (l ++ [x])).length ≠
        (alookup (store_chunk seq_num x.1 x.2 n S).frame_total_chunks seq_num).getD 0 := by
      rw [htlookup, hlen1]
      simp at hlen
      omega
    have hres : reassemble_frame seq_num (store_chunk seq_num x.1 x.2 n S) =
        (none, store_chunk seq_num x.1 x.2 n S) := by
      rw [reassemble_spec seq_num _ _ hlookup, if_neg (by omega)]
    rw [accept_chunk, hres]
    constructor
    · rw [hchunks1]
      simp
    · rw [htot1]
      simp

theorem mem_enum_of_lt (l : List α) (j : Nat) (hj : j < l.length) :
    (j, l[j]) ∈ l.enum := by
  have hj2 : j < l.enum.length := by
    rw [List.enum_length]
    exact hj
  have h1 : l.enum[j] = (j, l[j]) := List.getElem_enum l j hj2
  exact h1 ▸ List.getElem_mem hj2

/-- Claim C4.  The accept step (store the chunk at lines 99-104, then
reassemble_frame): a chunk that does not complete the frame is stored
under its index, overwriting any earlier chunk there, and accepting
the very same chunk again changes nothing (idempotence under duplicate
arrivals); reassembly returns a payload exactly when the stored index
set equals the full range below the declared chunk count, so a proper
subset of indices never completes; on completion the partial state for
that sequence number is removed; and consequently, for any payload and
any chunk size at least 1, splitting and then accepting all the chunks
in any arrival order makes the final accept return exactly the
original payload.  The hypotheses are the unique-key discipline of the
dictionaries. -/
theorem C4_accept_reassembly (st : ReceiverState)
    (seq_num chunk_index total_chunks : Nat) (chunk_data : List Nat)
    (hnd1 : (akeys st.frame_chunks).Nodup)
    (hnd2 : (akeys st.frame_total_chunks).Nodup)
    (hnd3 : (akeys ((alookup st.frame_chunks seq_num).getD [])).Nodup) :
    ((accept_chunk seq_num chunk_index total_chunks chunk_data st).1 = none →
      (∃ m, alookup
          (accept_chunk seq_num chunk_index total_chunks chunk_data st).2.frame_chunks
          seq_num = some m ∧ alookup m chunk_index = some chunk_data) ∧
      accept_chunk seq_num chunk_index total_chunks chunk_data
          (accept_chunk seq_num chunk_index total_chunks chunk_data st).2 =
        (none, (accept_chunk seq_num chunk_index total_chunks chunk_data st).2)) ∧
    ((accept_chunk seq_num chunk_index total_chunks chunk_data st).1.isSome ↔
      ∀ j, (alookup (ainsert chunk_index chunk_data
          ((alookup st.frame_chunks seq_num).getD [])) j).isSome ↔ j < total_chunks) ∧
    (∀ frame_data,
      (accept_chunk seq_num chunk_index total_chunks chunk_data st).1 = some frame_data →
      alookup (accept_chunk seq_num chunk_index total_chunks chunk_data st).2.frame_chunks
        seq_num = none ∧
      alookup
        (accept_chunk seq_num chunk_index total_chunks chunk_data st).2.frame_total_chunks
        seq_num = none) ∧
    (∀ (P : List Nat) (C : Nat), 1 ≤ C →
      ∀ (sq : Nat) (pre : List (Nat × List Nat)) (i : Nat) (d : List Nat),
        (pre ++ [(i, d)]).Perm (split_large_frame P C).enum →
        (accept_chunk sq i (split_large_frame P C).length d
          (accept_list sq (split_large_frame P C).length pre initReceiver)).1 = some P) := by
  have hsl := store_chunk_lookup seq_num chunk_index chunk_data total_chunks st
  have htd : (alookup (store_chunk seq_num chunk_index chunk_data total_chunks
      st).frame_total_chunks seq_num).getD 0 = total_chunks := by
    rw [hsl.2]
    rfl
  have hm1nd : (akeys (ainsert chunk_index chunk_data
      ((alookup st.frame_chunks seq_num).getD []))).Nodup :=
    nodup_akeys_ainsert _ _ _ hnd3
  have hb : (accept_chunk seq_num chunk_index total_chunks chunk_data st).1.isSome ↔
      ((ainsert chunk_index chunk_data
          ((alookup st.frame_chunks seq_num).getD [])).length = total_chunks ∧
        (collect_chunks (ainsert chunk_index chunk_data
          ((alookup st.frame_chunks seq_num).getD [])) total_chunks).isSome) := by
    rw [accept_chunk, reassemble_spec seq_num _ _ hsl.1, htd]
    by_cases hl : (ainsert chunk_index chunk_data
        ((alookup st.frame_chunks seq_num).getD [])).length = total_chunks
    · rw [if_pos hl]
      cases hcol : collect_chunks (ainsert chunk_index chunk_data
          ((alookup st.frame_chunks seq_num).getD [])) total_chunks with
      | none => simp [hl]
      | some fd => simp [hl]
    · rw [if_neg hl]
      simp [hl]
  refine ⟨?_, ?_, ?_, ?_⟩
  · intro hc
    have hc' : (reassemble_frame seq_num
        (store_chunk seq_num chunk_index chunk_data total_chunks st)).1 = none := hc
    have hnst := reassemble_none_state seq_num _ hc'
    have hst2 : (accept_chunk seq_num chunk_index total_chunks chunk_data st).2 =
        store_chunk seq_num chunk_index chunk_data total_chunks st := hnst
    constructor
    · refine ⟨ainsert chunk_index chunk_data ((alookup st.frame_chunks seq_num).getD []),
        ?_, alookup_ainsert_self _ _ _⟩
      rw [hst2]
      exact hsl.1
    · rw [hst2]
      have hstore2 : store_chunk seq_num chunk_index chunk_data total_chunks
          (store_chunk seq_num chunk_index chunk_data total_chunks st) =
          store_chunk seq_num chunk_index chunk_data total_chunks st := by
        rw [store_chunk]
        have hget : (alookup (store_chunk seq_num chunk_index chunk_data total_chunks
            st).frame_chunks seq_num).getD [] =
            ainsert chunk_index chunk_data ((alookup st.frame_chunks seq_num).getD []) := by
          rw [hsl.1]
          rfl
        rw [hget, ainsert_ainsert_self, ainsert_eq_self_of_lookup _ _ _ hsl.1,
          ainsert_eq_self_of_lookup _ _ _ hsl.2]
      rw [accept_chunk, hstore2]
      have h1 := hc'
      have h2 := hnst
      exact Prod.ext h1 h2
  · rw [hb, collect_chunks_isSome_iff]
    exact lookup_full_range_iff _ total_chunks hm1nd
  · intro frame_data hc
    have hc' : (reassemble_frame seq_num
        (store_chunk seq_num chunk_index chunk_data total_chunks st)).1 =
        some frame_data := hc
    have hsome := reassemble_some_state seq_num _ frame_data hc'
    have hndc : (akeys (store_chunk seq_num chunk_index chunk_data total_chunks
        st).frame_chunks).Nodup := nodup_akeys_ainsert _ _ _ hnd1
    have hndt : (akeys (store_chunk seq_num chunk_index chunk_data total_chunks
        st).frame_total_chunks).Nodup := nodup_akeys_ainsert _ _ _ hnd2
    constructor
    · show alookup (reassemble_frame seq_num _).2.frame_chunks seq_num = none
      rw [hsome.1]
      exact alookup_aerase_self _ _ hndc
    · show alookup (reassemble_frame seq_num _).2.frame_total_chunks seq_num = none
      rw [hsome.2]
      exact alookup_aerase_self _ _ hndt
  · intro P C hC sq pre i d hperm
    have hnnil : split_large_frame P C ≠ [] := split_ne_nil P C (by omega)
    have hn1 : 0 < (split_large_frame P C).length := List.length_pos.2 hnnil
    have hmapfst : ((pre ++ [(i, d)]).map Prod.fst).Perm
        (List.range (split_large_frame P C).length) := by
      have h1 := hperm.map Prod.fst
      rwa [List.enum_map_fst] at h1
    have hndall : ((pre ++ [(i, d)]).map Prod.fst).Nodup :=
      hmapfst.nodup_iff.2 (List.nodup_range _)
    have hndpre : (pre.map Prod.fst).Nodup := by
      rw [List.map_append] at hndall
      exact (List.nodup_append.1 hndall).1
    have hlentot : pre.length + 1 = (split_large_frame P C).length := by
      have hlen := hperm.length_eq
      rw [List.length_append, List.enum_length] at hlen
      simpa using hlen
    have hlenpre : pre.length < (split_large_frame P C).length := by omega
    obtain ⟨hchunksS, htotS⟩ :=
      accept_list_state sq (split_large_frame P C).length pre hndpre hlenpre
    have hm0 : (alookup (accept_list sq (split_large_frame P C).length pre
        initReceiver).frame_chunks sq).getD [] = buildMap pre := by
      by_cases he : pre.isEmpty
      · rw [hchunksS, if_pos he]
        have hpe : pre = [] := by
          cases pre with
          | nil => rfl
          | cons a l => simp at he
        rw [hpe]
        rfl
      · rw [hchunksS, if_neg he]
        simp [alookup]
    have hsl2 := store_chunk_lookup sq i d (split_large_frame P C).length
      (accept_list sq (split_large_frame P C).length pre initReceiver)
    have hlookupS : alookup (store_chunk sq i d (split_large_frame P C).length
        (accept_list sq (split_large_frame P C).length pre
          initReceiver)).frame_chunks sq = some (buildMap (pre ++ [(i, d)])) := by
      rw [hsl2.1, hm0, buildMap_append]
    have htdS : (alookup (store_chunk sq i d (split_large_frame P C).length
        (accept_list sq (split_large_frame P C).length pre
          initReceiver)).frame_total_chunks sq).getD 0 =
        (split_large_frame P C).length := by
      rw [hsl2.2]
      rfl
    have hlenm1 : (buildMap (pre ++ [(i, d)])).length =
        (split_large_frame P C).length := by
      rw [length_buildMap _ hndall]
      rw [List.length_append]
      simpa using hlentot
    have hlookups : ∀ j, j < (split_large_frame P C).length →
        alookup (buildMap (pre ++ [(i, d)])) j = (split_large_frame P C)[j]? := by
      intro j hj
      have hjm : (j, (split_large_frame P C)[j]) ∈ (split_large_frame P C).enum :=
        mem_enum_of_lt _ j hj
      have hjm2 : (j, (split_large_frame P C)[j]) ∈ pre ++ [(i, d)] :=
        hperm.mem_iff.2 hjm
      rw [alookup_buildMap_of_mem _ hndall j _ hjm2, List.getElem?_eq_getElem hj]
    have hcol : collect_chunks (buildMap (pre ++ [(i, d)]))
        (split_large_frame P C).length = some P := by
      rw [collect_chunks_eq _ (split_large_frame P C) _ (Nat.le_refl _) hlookups,
        List.take_length, split_join P C (by omega)]
    rw [accept_chunk, reassemble_spec sq _ _ hlookupS, htdS, if_pos hlenm1, hcol]

theorem C4_witness :
    ((akeys initReceiver.frame_chunks).Nodup ∧
      (akeys initReceiver.frame_total_chunks).Nodup ∧
      (akeys ((alookup initReceiver.frame_chunks 0).getD [])).Nodup ∧
      (1 : Nat) ≤ 2 ∧
      ([((0 : Nat), [1, 3])] ++ [(1, [9])]).Perm (split_large_frame [1, 3, 9] 2).enum) ∧
    (accept_chunk 0 1 (split_large_frame [1, 3, 9] 2).length [9]
      (accept_list 0 (split_large_frame [1, 3, 9] 2).length [(0, [1, 3])]
        initReceiver)).1 = some [1, 3, 9] := by
  have h := C4_accept_reassembly initReceiver 0 0 1 [7] (by decide) (by decide) (by decide)
  refine ⟨⟨by decide, by decide, by decide, by decide, by decide⟩, ?_⟩
  exact h.2.2.2 [1, 3, 9] 2 (by decide) 0 [(0, [1, 3])] 1 [9] (by decide)

end ScreenCast
